import Mathlib

/-!
Verification development for the poker-app backend hand engine
(`backend/app/models/poker.py` plus the `backend/app/api/poker.py` entry
points).

The Python class `PokerGame` is a thin wrapper around an external engine
(the `pokerkit` library): it creates a `NoLimitTexasHoldem` state with the
automations ANTE_POSTING, BET_COLLECTION, BLIND_OR_STRADDLE_POSTING,
HAND_KILLING and CHIPS_PULLING enabled and HOLE_CARDS_SHOWING_OR_MUCKING
and CHIPS_PUSHING disabled, and forwards every query/action to it.

The shallow embedding below therefore has two layers:

* `PK` models the relevant fragment of the pokerkit state, following the
  library's documented semantics: seat 0 posts the small blind (20), seat 1
  the big blind (40), the button is the last seat; the first pre-flop actor
  is seat 2 and post-flop betting starts from seat 0; folding mucks the
  player's hole cards; a completed betting round triggers automatic bet
  collection (the uncalled portion of a uniquely-largest bet is returned to
  its owner); a betting round is skipped when at most one active player has
  chips behind; `actor_index` is `None` outside a betting round;
  `can_fold` rejects redundant folds (nothing to call); raising is only
  possible to an amount above the current largest bet that either meets the
  minimum raise or is the player's whole total, and only while another
  active player with chips remains; `payoffs` are current stacks minus
  starting stacks; the state never reports completion (`status` stays
  truthy) because chip pushing/showing is left to the (absent) caller, and
  pokerkit exposes no `showdown_winners` attribute.

* `Game`, `executeAction`, `getValidActions`, `createApiState`,
  `determineWinner`, `getGameState`, `startGame` are translated line by
  line from `poker.py` / `api/poker.py`.
-/

namespace PokerApp

/-- Card suits, from the `Suit` enum of `poker.py`. -/
inductive Suit
  | hearts
  | diamonds
  | clubs
  | spades
deriving DecidableEq, Repr

/-- Card ranks, from the `Rank` enum of `poker.py`. -/
inductive Rank
  | two
  | three
  | four
  | five
  | six
  | seven
  | eight
  | nine
  | ten
  | jack
  | queen
  | king
  | ace
deriving DecidableEq, Repr

/-- A playing card (`Card` dataclass of `poker.py`). -/
structure Card where
  rank : Rank
  suit : Suit
deriving DecidableEq, Repr

def allRanks : List Rank :=
  [.two, .three, .four, .five, .six, .seven, .eight, .nine, .ten, .jack, .queen, .king, .ace]

def allSuits : List Suit :=
  [.hearts, .diamonds, .clubs, .spades]

/-- The 52-card deck in the construction order of `_initialize_unique_cards`
and `_deal_initial_cards` (rank-major, suit-minor). -/
def fullDeck : List Card :=
  allRanks.bind (fun r => allSuits.map (fun s => Card.mk r s))

/-- `ActionType` enum of `poker.py`. -/
inductive ActionType
  | fold
  | check
  | call
  | bet
  | raise
  | allIn
deriving DecidableEq, Repr

/-- `GameStage` enum of `poker.py`. -/
inductive GameStage
  | preflop
  | flop
  | turn
  | river
  | finished
deriving DecidableEq, Repr

/-- Phase of the modelled pokerkit state: collecting betting actions,
waiting for board dealing, or past all betting (awaiting the showing /
chip-pushing operations that the wrapper never performs). -/
inductive PKPhase
  | betting
  | dealing
  | showdown
deriving DecidableEq, Repr

/-- The modelled pokerkit `State` for a 6-player hand.  `queue` is
pokerkit's `actor_indices` (players still to act in the current betting
round, current actor first); `pot` holds the bets already collected by the
BET_COLLECTION automation, while `bets` are the current street's
uncollected bets. -/
structure PK where
  startingStacks : List Nat
  stacks' : List Nat
  bets : List Nat
  statuses : List Bool
  holeCards : List (List Card)
  board : List Card
  deck : List Card
  pot : Nat
  queue : List Nat
  minRaiseSize : Nat
  phase : PKPhase
  burnPending : Bool
  toDeal : Nat
deriving DecidableEq, Repr

/-- `max(state.bets)` (Python `max` over the six bets). -/
def PK.maxBet (pk : PK) : Nat := pk.bets.foldr Nat.max 0

/-- pokerkit `actor_index`: head of `actor_indices`, `None` outside a
betting round (the model keeps `queue = []` outside betting rounds). -/
def PK.actorIdx (pk : PK) : Option Nat := pk.queue.head?

/-- Indices of players whose pokerkit status is truthy (not folded). -/
def PK.activeIdxs (pk : PK) : List Nat :=
  (List.range 6).filter (fun i => pk.statuses.getD i false)

def PK.activeCount (pk : PK) : Nat := pk.activeIdxs.length

/-- pokerkit `State.status`: stays truthy for this wrapper, since the
showdown showing/mucking and chips-pushing operations that would complete
the hand are disabled automations the wrapper never invokes. -/
def PK.statusFlag (_ : PK) : Bool := true

/-- pokerkit `can_fold`: there is an actor and folding is not redundant
(the actor's bet is below the largest bet). -/
def PK.canFold (pk : PK) : Bool :=
  match pk.actorIdx with
  | some a => decide (pk.bets.getD a 0 < pk.maxBet)
  | none => false

/-- pokerkit `can_check_or_call`: there is an actor. -/
def PK.canCheckOrCall (pk : PK) : Bool := pk.actorIdx.isSome

/-- Some other active player still has chips behind (otherwise pokerkit
refuses a bet/raise: nobody could respond to it). -/
def PK.othersCanRespond (pk : PK) (a : Nat) : Bool :=
  (List.range 6).any
    (fun j => (j != a) && pk.statuses.getD j false && decide (0 < pk.stacks'.getD j 0))

/-- pokerkit `can_complete_bet_or_raise_to(amt)`: an actor exists, someone
can respond, the amount is affordable, strictly above the largest bet, and
either meets the minimum raise-to amount or is the actor's whole total. -/
def PK.canCompleteTo (pk : PK) (amt : Int) : Bool :=
  match pk.actorIdx with
  | none => false
  | some a =>
    pk.othersCanRespond a
      && decide (amt ≤ (pk.bets.getD a 0 : Int) + (pk.stacks'.getD a 0 : Int))
      && decide ((pk.maxBet : Int) < amt)
      && (decide (((pk.maxBet + pk.minRaiseSize : Nat) : Int) ≤ amt)
          || decide (amt = (pk.bets.getD a 0 : Int) + (pk.stacks'.getD a 0 : Int)))

/-- Largest bet among the players other than `j`. -/
def PK.secondMax (pk : PK) (j : Nat) : Nat :=
  ((List.range 6).filter (fun i => i != j)).foldr (fun i acc => Nat.max (pk.bets.getD i 0) acc) 0

/-- pokerkit BET_COLLECTION at the end of a betting round: the uncalled
portion of a uniquely-largest bet is returned to its owner, then all bets
move into the pot. -/
def PK.collectBets (pk : PK) : PK :=
  let m := pk.maxBet
  let owners := (List.range 6).filter (fun i => pk.bets.getD i 0 == m)
  let pk1 :=
    if owners.length == 1 then
      let j := owners.headD 0
      let m2 := pk.secondMax j
      { pk with stacks' := pk.stacks'.set j (pk.stacks'.getD j 0 + (m - m2)),
                bets := pk.bets.set j m2 }
    else pk
  { pk1 with pot := pk1.pot + pk1.bets.sum, bets := List.replicate 6 0 }

/-- Move to the next street's dealing phase (or past the river). -/
def PK.advanceStreet (pk : PK) : PK :=
  if 5 ≤ pk.board.length then { pk with phase := .showdown, queue := [] }
  else
    { pk with phase := .dealing, burnPending := true,
              toDeal := if pk.board.length == 0 then 3 else 1, queue := [] }

/-- Players eligible to act on a fresh street: active with chips behind,
in seat order from seat 0 (the small blind; the button is seat 5). -/
def PK.streetQueue (pk : PK) : List Nat :=
  (List.range 6).filter
    (fun i => pk.statuses.getD i false && decide (0 < pk.stacks'.getD i 0))

/-- Open the betting round of the street just dealt; pokerkit skips the
round entirely when fewer than two players could act. -/
def PK.startBettingOrSkip (pk : PK) : PK :=
  let q := pk.streetQueue
  if q.length ≤ 1 then pk.advanceStreet
  else { pk with phase := .betting, queue := q, minRaiseSize := 40 }

def PK.canBurn (pk : PK) : Bool :=
  pk.phase == .dealing && pk.burnPending && !pk.deck.isEmpty

def PK.burnOne (pk : PK) : PK :=
  { pk with deck := pk.deck.tail, burnPending := false }

def PK.canDealBoard (pk : PK) : Bool :=
  pk.phase == .dealing && !pk.burnPending && decide (0 < pk.toDeal) && !pk.deck.isEmpty

/-- pokerkit `deal_board()`: move the top of the deck onto the board; when
the street's cards are complete, open (or skip) its betting round. -/
def PK.dealOnce (pk : PK) : PK :=
  if pk.canDealBoard then
    match pk.deck with
    | [] => pk
    | c :: rest =>
      let pk1 := { pk with board := pk.board ++ [c], deck := rest, toDeal := pk.toDeal - 1 }
      if pk1.toDeal == 0 then pk1.startBettingOrSkip else pk1
  else pk

/-- End-of-action bookkeeping inside pokerkit: a round with at most one
active player left aborts (bets collected, no further streets); an emptied
actor queue ends the round normally. -/
def PK.afterBettingStep (pk : PK) : PK :=
  if pk.activeCount ≤ 1 then
    let pk1 := pk.collectBets
    { pk1 with phase := .showdown, queue := [] }
  else if pk.queue.isEmpty then (pk.collectBets).advanceStreet
  else pk

/-- pokerkit `fold()` by the current actor `a`: status cleared, hole cards
mucked, actor removed from the queue. -/
def PK.doFold (pk : PK) (a : Nat) : PK :=
  let pk1 := { pk with statuses := pk.statuses.set a false,
                       holeCards := pk.holeCards.set a [],
                       queue := pk.queue.tail }
  pk1.afterBettingStep

/-- pokerkit `checking_or_calling_amount`. -/
def PK.callAmount (pk : PK) (a : Nat) : Nat :=
  Nat.min (pk.maxBet - pk.bets.getD a 0) (pk.stacks'.getD a 0)

/-- pokerkit `check_or_call()` by the current actor `a`. -/
def PK.doCheckOrCall (pk : PK) (a : Nat) : PK :=
  let d := pk.callAmount a
  let pk1 := { pk with stacks' := pk.stacks'.set a (pk.stacks'.getD a 0 - d),
                       bets := pk.bets.set a (pk.bets.getD a 0 + d),
                       queue := pk.queue.tail }
  pk1.afterBettingStep

/-- Players who must respond to a raise by `a`: active players with chips,
in seat order after `a`. -/
def PK.raiseQueue (pk : PK) (a : Nat) : List Nat :=
  ((List.range 6).map (fun k => (a + 1 + k) % 6)).filter
    (fun j => (j != a) && pk.statuses.getD j false && decide (0 < pk.stacks'.getD j 0))

/-- pokerkit `complete_bet_or_raise_to(amt)` by the current actor `a`. -/
def PK.doCompleteTo (pk : PK) (a : Nat) (amt : Int) : PK :=
  let amtN := amt.toNat
  let d := amtN - pk.bets.getD a 0
  let pk1 := { pk with stacks' := pk.stacks'.set a (pk.stacks'.getD a 0 - d),
                       bets := pk.bets.set a amtN,
                       minRaiseSize := Nat.max pk.minRaiseSize (amtN - pk.maxBet),
                       queue := pk.raiseQueue a }
  pk1.afterBettingStep

/-- `_check_all_in_situation` of `poker.py`: nobody can act and no active
player has chips behind. -/
def PK.allInSituation (pk : PK) : Bool :=
  pk.actorIdx.isNone
    && !((List.range 6).any
          (fun i => pk.statuses.getD i false && decide (0 < pk.stacks'.getD i 0)))

/-- `_deal_all_remaining_cards` of `poker.py` (fuelled loop: burn if
possible, deal if possible, stop at five board cards or when stuck). -/
def PK.dealAllRemaining : Nat → PK → PK
  | 0, pk => pk
  | Nat.succ n, pk =>
    if pk.board.length < 5 then
      let pk1 := if pk.canBurn then pk.burnOne else pk
      if pk1.canDealBoard then PK.dealAllRemaining n pk1.dealOnce else pk1
    else pk

/-- pokerkit `payoffs`: current stacks minus starting stacks (no chips are
ever pushed back because the CHIPS_PUSHING automation is disabled). -/
def PK.payoffs (pk : PK) : List Int :=
  (List.range 6).map (fun i => (pk.stacks'.getD i 0 : Int) - (pk.startingStacks.getD i 0 : Int))


/-- The `Player` dataclass as produced by `_create_api_state`. -/
structure PlayerS where
  id : Nat
  name : String
  stack : Nat
  holeCards : List Card
  currentBet : Nat
  isFolded : Bool
  isAllIn : Bool
  isDealer : Bool
  isSmallBlind : Bool
  isBigBlind : Bool
deriving DecidableEq, Repr

instance : Inhabited PlayerS :=
  ⟨{ id := 0, name := "", stack := 0, holeCards := [], currentBet := 0, isFolded := false,
     isAllIn := false, isDealer := false, isSmallBlind := false, isBigBlind := false }⟩

/-- One `PlayerAction` record of the action log (timestamps omitted). -/
structure ActLog where
  playerId : Int
  action : ActionType
  amount : Int
deriving DecidableEq, Repr

/-- The `GameState` dataclass of `poker.py` (identifiers and timestamps
omitted). -/
structure StateS where
  players : List PlayerS
  communityCards : List Card
  pot : Int
  currentBet : Nat
  stage : GameStage
  dealerPosition : Nat
  currentPlayer : Nat
  actions : List ActLog
  isFinished : Bool
  winnerId : Option Nat
  winnerReason : String
deriving DecidableEq, Repr

/-- The `player_positions` dict stored by `_store_initial_positions`
(player ids, 1-based). -/
structure Positions where
  dealer : Option Nat
  smallBlind : Option Nat
  bigBlind : Option Nat
deriving DecidableEq, Repr

/-- The `PokerGame` object: the pokerkit state, the `player_stacks` dict
(as the list of its six values for player ids 1..6), the stored positions,
the fallback `unique_hole_cards`, and the cached API state `self.state`. -/
structure Game where
  pk : PK
  playerStacks : List Int
  positions : Positions
  uniqueHoleCards : List (List Card)
  stateS : StateS
deriving DecidableEq, Repr

/-- Hole cards shown for player index `i`, as in `get_player_hole_cards`
and the identical logic in `_create_api_state`: the pokerkit cards when
exactly two convert, otherwise the fallback `unique_hole_cards` pair when
exactly two convert, otherwise nothing.  (Card conversion via
`_pokerkit_card_to_api_card` always succeeds on well-formed cards, so it
is the identity here.) -/
def apiHoleCards (pk : PK) (unique : List (List Card)) (i : Nat) : List Card :=
  let pkCards := pk.holeCards.getD i []
  if pkCards.length == 2 then pkCards
  else
    let fb := unique.getD i []
    if fb.length == 2 then fb else []

/-- `_get_current_stage`: stage from the number of board cards. -/
def boardStage (pk : PK) : GameStage :=
  if pk.board.isEmpty then .preflop
  else if pk.board.length == 3 then .flop
  else if pk.board.length == 4 then .turn
  else if pk.board.length == 5 then .river
  else .finished

/-- One player record of `_create_api_state` (the `elif` chain means at
most one of the three position flags is set). -/
def mkPlayerS (pk : PK) (pos : Positions) (unique : List (List Card)) (i : Nat) : PlayerS :=
  let pid := i + 1
  let isDealer := pos.dealer == some pid
  let isSB := !isDealer && (pos.smallBlind == some pid)
  let isBB := !isDealer && !isSB && (pos.bigBlind == some pid)
  let st := pk.stacks'.getD i 0
  let folded := pk.statuses.getD i false == false
  { id := pid, name := "Player " ++ toString pid, stack := st,
    holeCards := apiHoleCards pk unique i,
    currentBet := pk.bets.getD i 0,
    isFolded := folded,
    isAllIn := (st == 0) && !folded,
    isDealer := isDealer, isSmallBlind := isSB, isBigBlind := isBB }

/-- `_create_api_state`: snapshot of the pokerkit state.  `pot` is
`sum(state.bets)` (the uncollected bets of the current street only) and
`current_bet` is `max(state.bets)`; actions, winner data and timestamps
are preserved from the previous cached state; `is_finished` mirrors
`not state.status`, which is always `False` here. -/
def createApiState (pk : PK) (pos : Positions) (unique : List (List Card)) (prev : StateS) :
    StateS :=
  let players := (List.range 6).map (mkPlayerS pk pos unique)
  let pot : Int := if pk.bets.isEmpty then 60 else (pk.bets.sum : Int)
  let curBet : Nat := if pk.bets.isEmpty then 40 else pk.maxBet
  let curPlayer := (pk.actorIdx.map (· + 1)).getD 1
  let dealerPos := ((players.find? (fun p => p.isDealer)).map (fun p => p.id)).getD 0
  { players := players, communityCards := pk.board, pot := pot, currentBet := curBet,
    stage := boardStage pk, dealerPosition := dealerPos, currentPlayer := curPlayer,
    actions := prev.actions, isFinished := !pk.statusFlag,
    winnerId := prev.winnerId, winnerReason := prev.winnerReason }

/-- `_store_initial_positions`: detect blinds from the initial bet
amounts (last index with bet 20 becomes the small blind, last with 40 the
big blind; dealer is one seat before the small blind, Python `%`). -/
def storePositions (bets : List Nat) : Positions :=
  let sb := ((List.range 6).filter (fun i => bets.getD i 0 == 20)).foldl
    (fun _ i => some (i + 1)) none
  let bb := ((List.range 6).filter (fun i => bets.getD i 0 == 40)).foldl
    (fun _ i => some (i + 1)) none
  { dealer := sb.map (fun s => (s - 1 + 5) % 6 + 1), smallBlind := sb, bigBlind := bb }

/-- `_deal_initial_cards`: twelve cards off the top of the wrapper's
shuffled deck are dealt one at a time via pokerkit `deal_hole`, which
distributes them round-robin from seat 0; so seat `i` holds cards `i` and
`6 + i` of the shuffle (when the deck is long enough). -/
def initialHole (d1 : List Card) (i : Nat) : List Card :=
  [i, 6 + i].filterMap (fun k => (d1.take 12).get? k)

/-- The pokerkit state right after `PokerGame.__init__`: blinds posted
from seats 0 and 1 (capped by their stacks), hole cards dealt, the first
pre-flop betting round open with seats 2,3,4,5,0,1 to act (players with no
chips behind are skipped; the round is skipped entirely if fewer than two
could act). -/
def mkPK (stacksIn : List Int) (d1 pkRest : List Card) : PK :=
  let s : List Nat := stacksIn.map Int.toNat
  let sb := Nat.min 20 (s.getD 0 0)
  let bb := Nat.min 40 (s.getD 1 0)
  let stacks0 := [s.getD 0 0 - sb, s.getD 1 0 - bb, s.getD 2 0, s.getD 3 0, s.getD 4 0,
    s.getD 5 0]
  let bets0 := [sb, bb, 0, 0, 0, 0]
  let q0 := [2, 3, 4, 5, 0, 1].filter (fun i => decide (0 < stacks0.getD i 0))
  { startingStacks := s, stacks' := stacks0, bets := bets0,
    statuses := List.replicate 6 true,
    holeCards := (List.range 6).map (initialHole d1),
    board := [], deck := pkRest, pot := 0,
    queue := if q0.length ≤ 1 then [] else q0,
    minRaiseSize := 40, phase := .betting, burnPending := false, toDeal := 0 }

/-- `_initialize_unique_cards`: the independent fallback shuffle, two
consecutive cards per player. -/
def mkUnique (d2 : List Card) : List (List Card) :=
  (List.range 6).map (fun i => (d2.drop (2 * i)).take 2)

/-- The empty previous state used during `__init__` (no actions, no
winner). -/
def emptyStateS : StateS :=
  { players := [], communityCards := [], pot := 0, currentBet := 0, stage := .preflop,
    dealerPosition := 0, currentPlayer := 0, actions := [], isFinished := false,
    winnerId := none, winnerReason := "" }

/-- `PokerGame.__init__` for stacks of players 1..6, parameterised by the
wrapper's shuffle `d1`, the pokerkit deck remainder `pkRest` (the 40
undealt cards in the engine's internal order) and the fallback shuffle
`d2`. -/
def mkGame (stacksIn : List Int) (d1 pkRest d2 : List Card) : Game :=
  let pk := mkPK stacksIn d1 pkRest
  let pos := storePositions pk.bets
  let unique := mkUnique d2
  { pk := pk, playerStacks := stacksIn, positions := pos, uniqueHoleCards := unique,
    stateS := createApiState pk pos unique emptyStateS }

/-- `get_valid_actions`: empty unless `player_id` is the current actor;
otherwise fold / check-or-call / bet-or-raise (probed at the minimum
raise `current_bet + 40`) / all-in (probed at the player's stack). -/
def getValidActions (g : Game) (pid : Int) : List ActionType :=
  match g.pk.actorIdx with
  | none => []
  | some a =>
    if (a : Int) != pid - 1 then []
    else
      let l1 := if g.pk.canFold then [ActionType.fold] else []
      let l2 :=
        if g.pk.canCheckOrCall then
          if g.pk.maxBet == g.pk.bets.getD a 0 then [ActionType.check] else [ActionType.call]
        else []
      let l3 :=
        if g.pk.canCompleteTo ((g.pk.maxBet : Int) + 40) then
          if g.pk.maxBet == 0 then [ActionType.bet] else [ActionType.raise]
        else []
      let l4 :=
        if decide (0 < g.pk.stacks'.getD a 0)
            && g.pk.canCompleteTo ((g.pk.stacks'.getD a 0 : Int)) then
          [ActionType.allIn]
        else []
      l1 ++ l2 ++ l3 ++ l4

/-- `_log_action`: append to `state.actions`. -/
def logAct (st : StateS) (pid : Int) (act : ActionType) (amount : Int) : StateS :=
  { st with actions := st.actions ++ [{ playerId := pid, action := act, amount := amount }] }

/-- `_evaluate_showdown_with_pokerkit` (returns a 1-indexed player id).
With no board cards it consults pokerkit `showdown_indices` (empty: the
state is not in its showdown-ordering phase) and then the best-payoff
check; with board cards, pokerkit has no `showdown_winners` attribute so
the positive-payoff scan runs; each fails (payoffs never exceed zero
because chips are never pushed), leaving the first active player. -/
def evaluateShowdown (pk : PK) (actives : List Nat) : Nat :=
  let payoffs := pk.payoffs
  let pre : Option Nat :=
    if pk.board.isEmpty then
      let best := (payoffs.maximum?).getD 0
      if 0 < best then
        ((List.range 6).find?
          (fun i => (payoffs.getD i 0 == best) && actives.contains i)).map (fun i => i + 1)
      else none
    else none
  match pre with
  | some w => w
  | none =>
    match ((List.range 6).find?
        (fun i => decide (0 < payoffs.getD i 0) && actives.contains i)).map (fun i => i + 1) with
    | some w => w
    | none => actives.headD 0 + 1

/-- `_determine_winner`: collect the active players that hold two cards;
a single one wins outright, otherwise `_evaluate_showdown_with_pokerkit`
returns a 1-indexed id which the caller increments again (`winner_id =
winner_index + 1`).  The pot (pokerkit `total_pot_amount`, with the
stack-difference fallback when zero) is added to the winner's entry of the
`player_stacks` dict only; the cached state is rebuilt from pokerkit (so
reported stacks never receive the pot) and the winner fields re-applied. -/
def determineWinner (g : Game) : Game :=
  let pk := g.pk
  let actives := (List.range 6).filter
    (fun i => ((pk.holeCards.getD i []).length == 2) && pk.statuses.getD i false)
  match actives with
  | [] => g
  | w :: rest =>
    let winnerId : Nat := if rest.isEmpty then w + 1 else evaluateShowdown pk actives + 1
    let pot0 : Int := ((pk.pot + pk.bets.sum : Nat) : Int)
    let potAmount : Int :=
      if pot0 == 0 then
        (List.zip g.playerStacks (pk.stacks'.map (fun n => (n : Int)))).foldl
          (fun acc p => acc + (p.1 - p.2)) 0
      else pot0
    let pstacks := g.playerStacks.set (winnerId - 1)
      (g.playerStacks.getD (winnerId - 1) 0 + potAmount)
    let reason := "Player " ++ toString winnerId ++ " wins the hand"
    let st0 := { g.stateS with winnerId := some winnerId, winnerReason := reason,
                               pot := potAmount, isFinished := true,
                               stage := GameStage.finished }
    let st1 := createApiState pk g.positions g.uniqueHoleCards st0
    let st2 := { st1 with winnerId := some winnerId, winnerReason := reason,
                          pot := potAmount, isFinished := true,
                          stage := GameStage.finished }
    { g with playerStacks := pstacks, stateS := st2 }

/-- The per-street dealing block of `_handle_automatic_progression`
(three cards on an empty board, one on the turn/river, each deal guarded
by `can_deal_board`). -/
def dealStreet (pk : PK) : PK :=
  if pk.canDealBoard then
    match pk.board.length with
    | 0 => ((pk.dealOnce).dealOnce).dealOnce
    | 3 => pk.dealOnce
    | 4 => pk.dealOnce
    | _ => pk
  else pk

/-- The hand-completion checks at the end of `_handle_automatic_progression`
applied to the post-dealing pokerkit state `pk2`: the hand ends when at
most one player is active, or the river is complete and nobody can act
(the pokerkit `status` completion condition never fires because `status`
stays truthy; see `PK.statusFlag`). -/
def progressTail (g : Game) (pk2 : PK) : Game :=
  if decide (pk2.activeCount ≤ 1) || (decide (5 ≤ pk2.board.length) && pk2.actorIdx.isNone) then
    determineWinner { g with pk := pk2 }
  else { g with pk := pk2 }

/-- `_handle_automatic_progression`: all-in fast-forward, else burn/deal
the next street when possible, then run the completion checks. -/
def handleProgression (g : Game) : Game :=
  if g.pk.allInSituation then
    determineWinner { g with pk := PK.dealAllRemaining 12 g.pk }
  else
    progressTail g (dealStreet (if g.pk.canBurn then g.pk.burnOne else g.pk))

/-- Tail of every accepted action in `execute_action`: log the action,
rebuild `self.state` from pokerkit, run the progression driver, return
`True`. -/
def finishStep (g : Game) (pid : Int) (act : ActionType) (amount : Int) (pk1 : PK) :
    Bool × Game :=
  let st1 := logAct g.stateS pid act amount
  let st2 := createApiState pk1 g.positions g.uniqueHoleCards st1
  (true, handleProgression { g with pk := pk1, stateS := st2 })

/-- `execute_action(player_id, action, amount)`: `False` without any
state change unless `player_id - 1` is the pokerkit actor and the
corresponding pokerkit precondition holds; a check additionally requires
that nothing is owed, and an all-in is a completion to the player's
remaining stack. -/
def executeAction (g : Game) (pid : Int) (act : ActionType) (amount : Int) : Bool × Game :=
  match g.pk.actorIdx with
  | none => (false, g)
  | some a =>
    if (a : Int) != pid - 1 then (false, g)
    else
      match act with
      | .fold =>
        if g.pk.canFold then finishStep g pid .fold 0 (g.pk.doFold a) else (false, g)
      | .check =>
        if g.pk.canCheckOrCall then
          if g.pk.maxBet == g.pk.bets.getD a 0 then
            finishStep g pid .check 0 (g.pk.doCheckOrCall a)
          else (false, g)
        else (false, g)
      | .call =>
        if g.pk.canCheckOrCall then
          finishStep g pid .call ((g.pk.callAmount a : Nat) : Int) (g.pk.doCheckOrCall a)
        else (false, g)
      | .bet =>
        if g.pk.canCompleteTo amount then
          finishStep g pid .bet amount (g.pk.doCompleteTo a amount)
        else (false, g)
      | .raise =>
        if g.pk.canCompleteTo amount then
          finishStep g pid .raise amount (g.pk.doCompleteTo a amount)
        else (false, g)
      | .allIn =>
        let s := g.pk.stacks'.getD a 0
        if decide (0 < s) && g.pk.canCompleteTo ((s : Nat) : Int) then
          finishStep g pid .allIn ((s : Nat) : Int) (g.pk.doCompleteTo a ((s : Nat) : Int))
        else (false, g)

/-- `get_game_state`: for an unfinished hand the cached state is rebuilt
from pokerkit (actions preserved); a finished hand is returned as is.
Returns the (possibly mutated) game and the snapshot it serialises. -/
def getGameState (g : Game) : Game × StateS :=
  if g.stateS.isFinished then (g, g.stateS)
  else
    let st := createApiState g.pk g.positions g.uniqueHoleCards g.stateS
    ({ g with stateS := st }, st)

/-- Validation failures of the `/api/poker/start` endpoint (`start_game`
in `api/poker.py`): a stack mapping without exactly six entries, a
non-positive stack, or a missing player key 1..6 (a Python `KeyError`
inside `PokerGame.__init__`). -/
inductive StartError
  | invalidPlayerCount
  | invalidStack
  | keyError
deriving DecidableEq, Repr

/-- `starting_stacks = tuple(player_stacks[i] for i in range(1, 7))`. -/
def lookupStacks (ps : List (Int × Int)) : Option (List Int) :=
  let vals := (List.range 6).map (fun i => ps.lookup ((i : Int) + 1))
  if vals.all (fun o => o.isSome) then some (vals.map (fun o => o.getD 0)) else none

/-- `start_game` of `api/poker.py`: reject a request whose `player_stacks`
does not have exactly 6 entries, then any entry with a non-positive
stack; only then construct the `PokerGame`. -/
def startGame (ps : List (Int × Int)) (d1 pkRest d2 : List Card) : Except StartError Game :=
  if ps.length ≠ 6 then .error .invalidPlayerCount
  else if ps.any (fun kv => decide (kv.2 ≤ 0)) then .error .invalidStack
  else
    match lookupStacks ps with
    | some st => .ok (mkGame st d1 pkRest d2)
    | none => .error .keyError

/-- The states a `PokerGame` can be in: freshly constructed from a
6-player positive-stack request and genuine shuffles, or obtained from a
reachable state by an accepted `execute_action` or by a `get_game_state`
refresh (rejected actions leave the state unchanged and need no case). -/
def validInit (stacksIn : List Int) (d1 pkRest d2 : List Card) : Prop :=
  stacksIn.length = 6 ∧ (∀ s ∈ stacksIn, 0 < s) ∧
  d1.Nodup ∧ d1.length = 52 ∧ (d1.take 12 ++ pkRest).Nodup ∧
  d2.Nodup ∧ d2.length = 52

inductive Reachable : Game → Prop
  | init (stacksIn : List Int) (d1 pkRest d2 : List Card)
      (h : validInit stacksIn d1 pkRest d2) : Reachable (mkGame stacksIn d1 pkRest d2)
  | step (g g2 : Game) (pid : Int) (act : ActionType) (amount : Int)
      (hg : Reachable g) (h : executeAction g pid act amount = (true, g2)) : Reachable g2
  | snap (g : Game) (hg : Reachable g) : Reachable (getGameState g).1


/-- Structural invariants of the modelled pokerkit state (without the
queue/activity bound re-established by `afterBettingStep`): list lengths,
chip conservation, a well-formed actor queue, card uniqueness across hole
cards, board and deck, and two pokerkit hole cards for exactly the active
players. -/
structure PkInv0 (pk : PK) : Prop where
  lenStacks : pk.stacks'.length = 6
  lenBets : pk.bets.length = 6
  lenStatuses : pk.statuses.length = 6
  lenHoles : pk.holeCards.length = 6
  lenStart : pk.startingStacks.length = 6
  chips : pk.stacks'.sum + (pk.bets.sum + pk.pot) = pk.startingStacks.sum
  queueNodup : pk.queue.Nodup
  queueMem : ∀ i ∈ pk.queue, i < 6 ∧ pk.statuses.getD i false = true ∧ 0 < pk.stacks'.getD i 0
  cards : (pk.holeCards.join ++ (pk.board ++ pk.deck)).Nodup
  holes : ∀ i, i < 6 →
    (pk.statuses.getD i false = true → (pk.holeCards.getD i []).length = 2) ∧
    (pk.statuses.getD i false = false → pk.holeCards.getD i [] = [])

/-- `PkInv0` together with: a nonempty actor queue implies at least two
active players. -/
structure PkInv (pk : PK) : Prop where
  base : PkInv0 pk
  queueActive : pk.queue ≠ [] → 2 ≤ pk.activeCount

/-- Invariants of a live `PokerGame`: the pokerkit invariants, six entries
in the `player_stacks` dict, and, once the cached state reports the hand
finished, an empty actor queue together with a cached snapshot that agrees
with the pokerkit state (stacks, board, fold flags, and the hole cards of
active players). -/
structure GameInv (g : Game) : Prop where
  pk : PkInv g.pk
  lenPS : g.playerStacks.length = 6
  finQueue : g.stateS.isFinished = true → g.pk.queue = []
  finStack : g.stateS.isFinished = true →
    g.stateS.players.map (fun p => p.stack) = g.pk.stacks'
  finBoard : g.stateS.isFinished = true → g.stateS.communityCards = g.pk.board
  finLen : g.stateS.isFinished = true → g.stateS.players.length = 6
  finFold : g.stateS.isFinished = true → ∀ i, i < 6 →
    (g.stateS.players.getD i default).isFolded = (g.pk.statuses.getD i false == false)
  finHole : g.stateS.isFinished = true → ∀ i, i < 6 →
    g.pk.statuses.getD i false = true →
    (g.stateS.players.getD i default).holeCards = g.pk.holeCards.getD i []

/-- A fixed card used only as a list-lookup default. -/
def c0 : Card := { rank := .two, suit := .hearts }

/-! ### Concrete scenarios -/

def stacks1000 : List Int := [1000, 1000, 1000, 1000, 1000, 1000]

/-- A concrete wrapper shuffle (the identity permutation of the deck is one
possible `random.shuffle` outcome). -/
def deckA : List Card := fullDeck

/-- A matching pokerkit deck remainder: the forty cards left after the
twelve hole cards are removed. -/
def deckRest : List Card := fullDeck.drop 12

/-- A concrete fallback shuffle for `_initialize_unique_cards`; the two
shuffles are independent, so both being the identity permutation is a
possible outcome. -/
def deckB : List Card := fullDeck

/-- Run a list of `(player_id, action, amount)` calls through
`execute_action`; the flag records whether every call was accepted. -/
def runActs : Game → List (Int × ActionType × Int) → Game × Bool
  | g, [] => (g, true)
  | g, (p, a, amt) :: rest =>
    let r := executeAction g p a amt
    let r2 := runActs r.2 rest
    (r2.1, r.1 && r2.2)

def g0c : Game := mkGame stacks1000 deckA deckRest deckB

/-- Everybody calls pre-flop and the big blind checks: the round ends, the
bets are collected and the flop is dealt. -/
def c1run : Game × Bool :=
  runActs g0c [(3, .call, 0), (4, .call, 0), (5, .call, 0), (6, .call, 0),
    (1, .call, 0), (2, .check, 0)]

/-- All cards shown by a snapshot: every player's displayed hole cards
plus the board. -/
def snapCards (st : StateS) : List Card :=
  (st.players.bind (fun p => p.holeCards)) ++ st.communityCards

/-- A single accepted fold. -/
def c2run : Game × Bool := runActs g0c [(3, .fold, 0)]

/-- Player 3 raises to 80, players 4, 5, 6 fold, player 1 calls, player 2
folds, and the two remaining players check the hand down to showdown. -/
def c3run : Game × Bool :=
  runActs g0c [(3, .raise, 80), (4, .fold, 0), (5, .fold, 0), (6, .fold, 0),
    (1, .call, 0), (2, .fold, 0), (1, .check, 0), (3, .check, 0), (1, .check, 0),
    (3, .check, 0), (1, .check, 0), (3, .check, 0)]

/-- Five players fold in turn; the big blind wins by default. -/
def c4run : Game × Bool :=
  runActs g0c [(3, .fold, 0), (4, .fold, 0), (5, .fold, 0), (6, .fold, 0), (1, .fold, 0)]

def gf1 : Game := (executeAction g0c 3 .fold 0).2
def gf2 : Game := (executeAction gf1 4 .fold 0).2
def gf3 : Game := (executeAction gf2 5 .fold 0).2
def gf4 : Game := (executeAction gf3 6 .fold 0).2
def gf5 : Game := (executeAction gf4 1 .fold 0).2

/-- A hand where the first actor (player 3) holds a 30-chip stack facing
the 40-chip big blind. -/
def g7c : Game := mkGame [1000, 1000, 30, 1000, 1000, 1000] deckA deckRest deckB


/-! ### Generic list helpers -/

theorem getD_set_self {α : Type} (l : List α) (i : Nat) (v d : α) (h : i < l.length) :
    (l.set i v).getD i d = v := by
  induction l generalizing i with
  | nil => simp at h
  | cons x t ih =>
    cases i with
    | zero => rfl
    | succ n => simpa using ih n (by simpa using h)

theorem getD_set_ne {α : Type} (l : List α) (i j : Nat) (v d : α) (h : i ≠ j) :
    (l.set i v).getD j d = l.getD j d := by
  induction l generalizing i j with
  | nil => simp [List.set]
  | cons x t ih =>
    cases i with
    | zero =>
      cases j with
      | zero => exact absurd rfl h
      | succ m => rfl
    | succ n =>
      cases j with
      | zero => rfl
      | succ m => simpa using ih n m (by omega)

theorem sum_set_nat (l : List Nat) (i v : Nat) (h : i < l.length) :
    (l.set i v).sum + l.getD i 0 = l.sum + v := by
  induction l generalizing i with
  | nil => simp at h
  | cons x t ih =>
    cases i with
    | zero => simp [List.set]; omega
    | succ n =>
      have := ih n (by simpa using h)
      simp only [List.set, List.sum_cons, List.getD_cons_succ]
      omega

theorem eta_range_map {α β : Type} (f : α → β) (d : α) :
    ∀ (n : Nat) (l : List α), l.length = n →
      (List.range n).map (fun i => f (l.getD i d)) = l.map f := by
  intro n
  induction n with
  | zero => intro l hl; cases l <;> simp_all
  | succ m ih =>
    intro l hl
    cases l with
    | nil => simp at hl
    | cons x t =>
      have ht : t.length = m := by simpa using hl
      rw [List.range_succ_eq_map, List.map_cons, List.map_map, List.map_cons]
      refine congrArg (fun r => f x :: r) ?_
      rw [← ih t ht]
      refine List.map_congr_left ?_
      intro i _
      simp [Function.comp]

theorem eta_range_getD {α : Type} (d : α) (n : Nat) (l : List α) (h : l.length = n) :
    (List.range n).map (fun i => l.getD i d) = l := by
  have := eta_range_map (fun a => a) d n l h
  simpa using this

theorem getD_range_map_self {α : Type} (f : Nat → α) (n i : Nat) (d : α) (h : i < n) :
    ((List.range n).map f).getD i d = f i := by
  have hlen : i < ((List.range n).map f).length := by simpa using h
  rw [List.getD_eq_getElem?_getD, List.getElem?_eq_getElem hlen]
  simp

theorem sublist_bind {α β : Type} (f : α → List β) {s t : List α} (h : s.Sublist t) :
    (s.bind f).Sublist (t.bind f) := by
  induction h with
  | slnil => simp
  | cons a h ih =>
    simp only [List.cons_bind]
    exact ih.trans (List.sublist_append_right _ _)
  | cons₂ a h ih =>
    simp only [List.cons_bind]
    exact ih.append_left _

theorem join_set_nil_sublist {α : Type} (l : List (List α)) (i : Nat) :
    ((l.set i []).join).Sublist l.join := by
  induction l generalizing i with
  | nil => simp [List.set]
  | cons x t ih =>
    cases i with
    | zero => simpa using (List.sublist_append_right x t.join)
    | succ n =>
      simp only [List.set, List.join_cons]
      exact (ih n).append_left _

theorem le_foldr_max (l : List Nat) (x : Nat) (h : x ∈ l) : x ≤ l.foldr Nat.max 0 := by
  induction l with
  | nil => simp at h
  | cons y t ih =>
    rcases List.mem_cons.mp h with rfl | hm
    · exact Nat.le_max_left _ _
    · exact (ih hm).trans (Nat.le_max_right _ _)


/-! ### Invariants of the modelled pokerkit state -/

theorem activeCount_congr (pk pk2 : PK) (h : pk2.statuses = pk.statuses) :
    pk2.activeCount = pk.activeCount := by
  unfold PK.activeCount PK.activeIdxs
  rw [h]

theorem collectBets_statuses (pk : PK) : pk.collectBets.statuses = pk.statuses := by
  simp only [PK.collectBets]
  split <;> rfl

theorem collectBets_holeCards (pk : PK) : pk.collectBets.holeCards = pk.holeCards := by
  simp only [PK.collectBets]
  split <;> rfl

theorem collectBets_board (pk : PK) : pk.collectBets.board = pk.board := by
  simp only [PK.collectBets]
  split <;> rfl

theorem collectBets_deck (pk : PK) : pk.collectBets.deck = pk.deck := by
  simp only [PK.collectBets]
  split <;> rfl

theorem collectBets_queue (pk : PK) : pk.collectBets.queue = pk.queue := by
  simp only [PK.collectBets]
  split <;> rfl

theorem collectBets_startingStacks (pk : PK) :
    pk.collectBets.startingStacks = pk.startingStacks := by
  simp only [PK.collectBets]
  split <;> rfl

theorem getD_le_maxBet (pk : PK) (i : Nat) : pk.bets.getD i 0 ≤ pk.maxBet := by
  unfold PK.maxBet
  unfold List.getD
  cases hg : pk.bets.get? i with
  | none => simp
  | some v =>
    have hv : v ∈ pk.bets := List.get?_mem hg
    simpa using le_foldr_max pk.bets v hv

theorem headD_mem {α : Type} (l : List α) (d : α) (h : l ≠ []) : l.headD d ∈ l := by
  cases l with
  | nil => exact absurd rfl h
  | cons x t => exact List.mem_cons_self x t

theorem foldr_max_le (f : Nat → Nat) (m : Nat) (l : List Nat) (h : ∀ i ∈ l, f i ≤ m) :
    l.foldr (fun i acc => Nat.max (f i) acc) 0 ≤ m := by
  induction l with
  | nil => simp
  | cons x t ih =>
    simp only [List.foldr_cons]
    exact Nat.max_le.mpr ⟨h x (List.mem_cons_self x t), ih (fun i hi => h i (List.mem_cons_of_mem x hi))⟩

theorem secondMax_le_maxBet (pk : PK) (j : Nat) : pk.secondMax j ≤ pk.maxBet := by
  unfold PK.secondMax
  exact foldr_max_le _ _ _ (fun i _ => getD_le_maxBet pk i)

theorem collectBets_bets (pk : PK) : pk.collectBets.bets = List.replicate 6 0 := by
  simp only [PK.collectBets]

theorem collectBets_stacks_cases (pk : PK) :
    pk.collectBets.stacks' = pk.stacks' ∧
      pk.collectBets.pot = pk.pot + pk.bets.sum ∨
    ∃ j, j < 6 ∧ pk.bets.getD j 0 = pk.maxBet ∧
      pk.collectBets.stacks' =
        pk.stacks'.set j (pk.stacks'.getD j 0 + (pk.maxBet - pk.secondMax j)) ∧
      pk.collectBets.pot = pk.pot + (pk.bets.set j (pk.secondMax j)).sum := by
  simp only [PK.collectBets]
  split
  case isTrue hone =>
    right
    have hne : (List.range 6).filter (fun i => pk.bets.getD i 0 == pk.maxBet) ≠ [] := by
      intro hemp
      rw [hemp] at hone
      simp at hone
    have hmem := headD_mem _ 0 hne
    have hmem2 := List.mem_filter.mp hmem
    refine ⟨_, by simpa using hmem2.1, by simpa using hmem2.2, rfl, rfl⟩
  case isFalse hone =>
    left
    exact ⟨rfl, rfl⟩

theorem pkInv0_collectBets (pk : PK) (h : PkInv0 pk) : PkInv0 pk.collectBets := by
  obtain ⟨l1, l2, l3, l4, l5, hchips, hqn, hqm, hcards, hholes⟩ := h
  have hb := collectBets_bets pk
  have hst := collectBets_statuses pk
  have hhc := collectBets_holeCards pk
  have hbd := collectBets_board pk
  have hdk := collectBets_deck pk
  have hq := collectBets_queue pk
  have hss := collectBets_startingStacks pk
  have hchips2 : pk.collectBets.stacks'.sum + pk.collectBets.pot
      = pk.stacks'.sum + pk.bets.sum + pk.pot ∧
      pk.collectBets.stacks'.length = 6 ∧
      (∀ i ∈ pk.queue, 0 < pk.collectBets.stacks'.getD i 0) := by
    rcases collectBets_stacks_cases pk with ⟨he, hp⟩ | ⟨j, hj6, hjb, he, hp⟩
    · rw [he, hp]
      exact ⟨by omega, l1, fun i hi => (hqm i hi).2.2⟩
    · have hjl : j < pk.stacks'.length := by omega
      have e1 := sum_set_nat pk.stacks' j
        (pk.stacks'.getD j 0 + (pk.maxBet - pk.secondMax j)) hjl
      have e2 := sum_set_nat pk.bets j (pk.secondMax j) (by omega)
      have hm2 := secondMax_le_maxBet pk j
      refine ⟨by rw [he, hp]; omega, by rw [he]; simp [List.length_set, l1], ?_⟩
      intro i hi
      rw [he]
      by_cases hij : j = i
      · subst hij
        rw [getD_set_self _ _ _ _ hjl]
        have := (hqm j hi).2.2
        omega
      · rw [getD_set_ne _ _ _ _ _ hij]
        exact (hqm i hi).2.2
  refine ⟨hchips2.2.1, by rw [hb]; rfl, by rw [hst]; exact l3, by rw [hhc]; exact l4,
    by rw [hss]; exact l5, ?_, by rw [hq]; exact hqn, ?_, ?_, ?_⟩
  · rw [hb, hss]
    have : (List.replicate 6 0 : List Nat).sum = 0 := by simp
    rw [this]
    have := hchips2.1
    omega
  · intro i hi
    rw [hq] at hi
    rw [hst]
    exact ⟨(hqm i hi).1, (hqm i hi).2.1, hchips2.2.2 i hi⟩
  · rw [hhc, hbd, hdk]
    exact hcards
  · intro i hi
    rw [hst, hhc]
    exact hholes i hi

theorem pkInv_collectBets (pk : PK) (h : PkInv pk) : PkInv pk.collectBets := by
  refine ⟨pkInv0_collectBets pk h.base, ?_⟩
  rw [collectBets_queue]
  intro hne
  have := h.queueActive hne
  rw [activeCount_congr pk pk.collectBets (collectBets_statuses pk)]
  exact this


theorem pkInv_advanceStreet (pk : PK) (h : PkInv0 pk) : PkInv pk.advanceStreet := by
  obtain ⟨l1, l2, l3, l4, l5, hchips, hqn, hqm, hcards, hholes⟩ := h
  unfold PK.advanceStreet
  split
  · exact ⟨⟨l1, l2, l3, l4, l5, hchips, by simp, by simp, hcards, hholes⟩, by simp⟩
  · exact ⟨⟨l1, l2, l3, l4, l5, hchips, by simp, by simp, hcards, hholes⟩, by simp⟩

theorem filter_and_sublist {α : Type} (p q : α → Bool) (l : List α) :
    (l.filter (fun a => p a && q a)).Sublist (l.filter p) := by
  induction l with
  | nil => simp
  | cons x t ih =>
    by_cases hp : p x = true
    · by_cases hq : q x = true
      · simpa [List.filter_cons, hp, hq] using ih.cons₂ x
      · have hq' : q x = false := by
          cases hqx : q x
          · rfl
          · exact absurd hqx hq
        simp only [List.filter_cons, hp, hq', Bool.and_false, if_true, if_false]
        simp only [Bool.false_eq_true, if_false]
        exact ih.trans (List.sublist_cons_self x (t.filter p))
    · have hp' : p x = false := by
        cases hpx : p x
        · rfl
        · exact absurd hpx hp
      simpa [List.filter_cons, hp'] using ih

theorem streetQueue_spec (pk : PK) :
    ∀ i ∈ pk.streetQueue, i < 6 ∧ pk.statuses.getD i false = true ∧ 0 < pk.stacks'.getD i 0 := by
  intro i hi
  have h2 := List.mem_filter.mp hi
  have h6 : i < 6 := by simpa using h2.1
  have hpred := h2.2
  simp only [Bool.and_eq_true, decide_eq_true_eq] at hpred
  exact ⟨h6, hpred.1, hpred.2⟩

theorem streetQueue_nodup (pk : PK) : pk.streetQueue.Nodup :=
  (List.nodup_range 6).filter _

theorem streetQueue_le_active (pk : PK) : pk.streetQueue.length ≤ pk.activeCount := by
  unfold PK.streetQueue PK.activeCount PK.activeIdxs
  exact (filter_and_sublist (fun i => pk.statuses.getD i false)
    (fun i => decide (0 < pk.stacks'.getD i 0)) (List.range 6)).length_le

theorem pkInv_startBettingOrSkip (pk : PK) (h : PkInv0 pk) : PkInv pk.startBettingOrSkip := by
  simp only [PK.startBettingOrSkip]
  split
  · exact pkInv_advanceStreet pk h
  case isFalse hlen =>
    obtain ⟨l1, l2, l3, l4, l5, hchips, hqn, hqm, hcards, hholes⟩ := h
    refine ⟨⟨l1, l2, l3, l4, l5, hchips, streetQueue_nodup pk, streetQueue_spec pk,
      hcards, hholes⟩, ?_⟩
    intro _
    have h2 := streetQueue_le_active pk
    exact le_trans (by omega) h2

theorem pkInv_burnOne (pk : PK) (h : PkInv pk) : PkInv pk.burnOne := by
  obtain ⟨⟨l1, l2, l3, l4, l5, hchips, hqn, hqm, hcards, hholes⟩, hqa⟩ := h
  refine ⟨⟨l1, l2, l3, l4, l5, hchips, hqn, hqm, ?_, hholes⟩, hqa⟩
  refine hcards.sublist ?_
  exact (List.Sublist.append_left
    ((List.Sublist.refl pk.board).append (List.tail_sublist pk.deck)) _)

theorem pkInv_dealOnce (pk : PK) (h : PkInv pk) : PkInv pk.dealOnce := by
  unfold PK.dealOnce
  split
  case isFalse => exact h
  case isTrue =>
    cases hdeck : pk.deck with
    | nil => exact h
    | cons c rest =>
      obtain ⟨⟨l1, l2, l3, l4, l5, hchips, hqn, hqm, hcards, hholes⟩, hqa⟩ := h
      have hcards2 : (pk.holeCards.join ++ ((pk.board ++ [c]) ++ rest)).Nodup := by
        rw [List.append_assoc pk.board [c] rest, List.singleton_append]
        rw [hdeck] at hcards
        exact hcards
      have h1 : PkInv { pk with board := pk.board ++ [c], deck := rest,
                                toDeal := pk.toDeal - 1 } :=
        ⟨⟨l1, l2, l3, l4, l5, hchips, hqn, hqm, hcards2, hholes⟩, hqa⟩
      dsimp only
      split
      · exact pkInv_startBettingOrSkip _ h1.base
      · exact h1

theorem pkInv_afterBettingStep (pk : PK) (h : PkInv0 pk) : PkInv pk.afterBettingStep := by
  unfold PK.afterBettingStep
  split
  case isTrue =>
    have h2 := pkInv0_collectBets pk h
    obtain ⟨l1, l2, l3, l4, l5, hchips, hqn, hqm, hcards, hholes⟩ := h2
    exact ⟨⟨l1, l2, l3, l4, l5, hchips, by simp, by simp, hcards, hholes⟩, by simp⟩
  case isFalse h1 =>
    split
    · exact pkInv_advanceStreet _ (pkInv0_collectBets pk h)
    · exact ⟨h, fun _ => by omega⟩

theorem pkInv_dealAllRemaining (n : Nat) (pk : PK) (h : PkInv pk) :
    PkInv (PK.dealAllRemaining n pk) := by
  induction n generalizing pk with
  | zero => exact h
  | succ m ih =>
    simp only [PK.dealAllRemaining]
    split
    case isFalse => exact h
    case isTrue =>
      by_cases hb : pk.canBurn = true
      · rw [if_pos hb]
        split
        · exact ih _ (pkInv_dealOnce _ (pkInv_burnOne pk h))
        · exact pkInv_burnOne pk h
      · rw [if_neg hb]
        split
        · exact ih _ (pkInv_dealOnce _ h)
        · exact h

theorem actor_queue_cons (pk : PK) (a : Nat) (ha : pk.actorIdx = some a) :
    ∃ t, pk.queue = a :: t := by
  unfold PK.actorIdx at ha
  cases hq : pk.queue with
  | nil => rw [hq] at ha; simp at ha
  | cons x t =>
    rw [hq] at ha
    simp only [List.head?_cons, Option.some.injEq] at ha
    exact ⟨t, by rw [ha]⟩

theorem pkInv_doFold (pk : PK) (a : Nat) (h : PkInv pk) (ha : pk.actorIdx = some a) :
    PkInv (pk.doFold a) := by
  obtain ⟨⟨l1, l2, l3, l4, l5, hchips, hqn, hqm, hcards, hholes⟩, hqa⟩ := h
  obtain ⟨t, hq⟩ := actor_queue_cons pk a ha
  have hmem : a ∈ pk.queue := by rw [hq]; exact List.mem_cons_self a t
  have ha6 : a < 6 := (hqm a hmem).1
  have hnot : a ∉ t := by
    rw [hq] at hqn
    exact (List.nodup_cons.mp hqn).1
  unfold PK.doFold
  apply pkInv_afterBettingStep
  refine ⟨l1, l2, by simpa using l3, by simpa using l4, l5, hchips, ?_, ?_, ?_, ?_⟩
  · rw [hq]
    rw [hq] at hqn
    exact (List.nodup_cons.mp hqn).2
  · intro i hi
    rw [hq] at hi
    have hit : i ∈ t := hi
    have hia : i ≠ a := fun hia => hnot (hia ▸ hit)
    have him : i ∈ pk.queue := by rw [hq]; exact List.mem_cons_of_mem a hit
    obtain ⟨h6, hst, hstk⟩ := hqm i him
    refine ⟨h6, ?_, hstk⟩
    rw [getD_set_ne _ _ _ _ _ (fun hai => hia hai.symm)]
    exact hst
  · refine hcards.sublist ?_
    exact (join_set_nil_sublist pk.holeCards a).append (List.Sublist.refl _)
  · intro i hi
    by_cases hia : a = i
    · subst hia
      constructor
      · intro hst
        rw [getD_set_self _ _ _ _ (by omega)] at hst
        cases hst
      · intro _
        rw [getD_set_self _ _ _ _ (by omega)]
    · rw [getD_set_ne _ _ _ _ _ hia, getD_set_ne _ _ _ _ _ hia]
      exact hholes i hi

theorem pkInv_doCheckOrCall (pk : PK) (a : Nat) (h : PkInv pk) (ha : pk.actorIdx = some a) :
    PkInv (pk.doCheckOrCall a) := by
  obtain ⟨⟨l1, l2, l3, l4, l5, hchips, hqn, hqm, hcards, hholes⟩, hqa⟩ := h
  obtain ⟨t, hq⟩ := actor_queue_cons pk a ha
  have hmem : a ∈ pk.queue := by rw [hq]; exact List.mem_cons_self a t
  have ha6 : a < 6 := (hqm a hmem).1
  have hnot : a ∉ t := by
    rw [hq] at hqn
    exact (List.nodup_cons.mp hqn).1
  unfold PK.doCheckOrCall
  apply pkInv_afterBettingStep
  have hd : pk.callAmount a ≤ pk.stacks'.getD a 0 := Nat.min_le_right _ _
  have e1 := sum_set_nat pk.stacks' a (pk.stacks'.getD a 0 - pk.callAmount a) (by omega)
  have e2 := sum_set_nat pk.bets a (pk.bets.getD a 0 + pk.callAmount a) (by omega)
  refine ⟨by simpa using l1, by simpa using l2, l3, l4, l5, ?_, ?_, ?_, hcards, hholes⟩
  case _ =>
    show (pk.stacks'.set a (pk.stacks'.getD a 0 - pk.callAmount a)).sum +
      ((pk.bets.set a (pk.bets.getD a 0 + pk.callAmount a)).sum + pk.pot) =
      pk.startingStacks.sum
    omega
  · rw [hq]
    rw [hq] at hqn
    exact (List.nodup_cons.mp hqn).2
  · intro i hi
    rw [hq] at hi
    have hit : i ∈ t := hi
    have hia : a ≠ i := fun hia => hnot (hia ▸ hit)
    have him : i ∈ pk.queue := by rw [hq]; exact List.mem_cons_of_mem a hit
    obtain ⟨h6, hst, hstk⟩ := hqm i him
    refine ⟨h6, hst, ?_⟩
    rw [getD_set_ne _ _ _ _ _ hia]
    exact hstk

theorem raiseQueue_spec (pk : PK) (a : Nat) :
    ∀ i ∈ pk.raiseQueue a, i < 6 ∧ i ≠ a ∧ pk.statuses.getD i false = true ∧
      0 < pk.stacks'.getD i 0 := by
  intro i hi
  have h2 := List.mem_filter.mp hi
  have h6 : i < 6 := by
    obtain ⟨k, _, hk⟩ := List.mem_map.mp h2.1
    omega
  have hpred := h2.2
  simp only [Bool.and_eq_true, bne_iff_ne, ne_eq, decide_eq_true_eq] at hpred
  exact ⟨h6, hpred.1.1, hpred.1.2, hpred.2⟩

theorem raiseQueue_nodup (pk : PK) (a : Nat) (ha : a < 6) : (pk.raiseQueue a).Nodup := by
  refine List.Nodup.filter _ ?_
  interval_cases a <;> decide

theorem pkInv_doCompleteTo (pk : PK) (a : Nat) (amt : Int) (h : PkInv pk)
    (ha : pk.actorIdx = some a) (hc : pk.canCompleteTo amt = true) : PkInv (pk.doCompleteTo a amt) := by
  obtain ⟨⟨l1, l2, l3, l4, l5, hchips, hqn, hqm, hcards, hholes⟩, hqa⟩ := h
  obtain ⟨t, hq⟩ := actor_queue_cons pk a ha
  have hmem : a ∈ pk.queue := by rw [hq]; exact List.mem_cons_self a t
  have ha6 : a < 6 := (hqm a hmem).1
  unfold PK.canCompleteTo at hc
  rw [ha] at hc
  simp only [Bool.and_eq_true, Bool.or_eq_true, decide_eq_true_eq] at hc
  have hle : amt ≤ (pk.bets.getD a 0 : Int) + (pk.stacks'.getD a 0 : Int) := hc.1.1.2
  have hgt : (pk.maxBet : Int) < amt := hc.1.2
  have hnn : 0 ≤ amt := by
    have : (0 : Int) ≤ (pk.maxBet : Int) := Int.ofNat_nonneg _
    omega
  have htn : (amt.toNat : Int) = amt := Int.toNat_of_nonneg hnn
  have hbla : pk.bets.getD a 0 ≤ pk.maxBet := getD_le_maxBet pk a
  have hdle : amt.toNat - pk.bets.getD a 0 ≤ pk.stacks'.getD a 0 := by omega
  unfold PK.doCompleteTo
  apply pkInv_afterBettingStep
  have e1 := sum_set_nat pk.stacks' a
    (pk.stacks'.getD a 0 - (amt.toNat - pk.bets.getD a 0)) (by omega)
  have e2 := sum_set_nat pk.bets a amt.toNat (by omega)
  refine ⟨by simpa using l1, by simpa using l2, l3, l4, l5, ?_,
    raiseQueue_nodup pk a ha6, ?_, hcards, hholes⟩
  case _ =>
    show (pk.stacks'.set a (pk.stacks'.getD a 0 - (amt.toNat - pk.bets.getD a 0))).sum +
      ((pk.bets.set a amt.toNat).sum + pk.pot) = pk.startingStacks.sum
    omega
  intro i hi
  obtain ⟨h6, hia, hst, hstk⟩ := raiseQueue_spec pk a i hi
  refine ⟨h6, hst, ?_⟩
  rw [getD_set_ne _ _ _ _ _ (fun hai => hia hai.symm)]
  exact hstk


/-! ### Invariants of the wrapper -/

theorem createApiState_isFinished (pk : PK) (pos : Positions) (unique : List (List Card))
    (prev : StateS) : (createApiState pk pos unique prev).isFinished = false := rfl

theorem createApiState_players (pk : PK) (pos : Positions) (unique : List (List Card))
    (prev : StateS) :
    (createApiState pk pos unique prev).players = (List.range 6).map (mkPlayerS pk pos unique) :=
  rfl

theorem createApiState_board (pk : PK) (pos : Positions) (unique : List (List Card))
    (prev : StateS) : (createApiState pk pos unique prev).communityCards = pk.board := rfl

theorem createApiState_map_stack (pk : PK) (pos : Positions) (unique : List (List Card))
    (prev : StateS) (h6 : pk.stacks'.length = 6) :
    (createApiState pk pos unique prev).players.map (fun p => p.stack) = pk.stacks' := by
  rw [createApiState_players, List.map_map]
  exact eta_range_getD 0 6 pk.stacks' h6

theorem createApiState_len_players (pk : PK) (pos : Positions) (unique : List (List Card))
    (prev : StateS) : (createApiState pk pos unique prev).players.length = 6 := by
  rw [createApiState_players]
  simp

theorem createApiState_getD_player (pk : PK) (pos : Positions) (unique : List (List Card))
    (prev : StateS) (i : Nat) (hi : i < 6) :
    (createApiState pk pos unique prev).players.getD i default = mkPlayerS pk pos unique i := by
  rw [createApiState_players]
  exact getD_range_map_self _ 6 i default hi

theorem apiHoleCards_active (pk : PK) (unique : List (List Card)) (i : Nat)
    (h2 : (pk.holeCards.getD i []).length = 2) :
    apiHoleCards pk unique i = pk.holeCards.getD i [] := by
  unfold apiHoleCards
  have hc : ((pk.holeCards.getD i []).length == 2) = true := by rw [h2]; rfl
  rw [if_pos hc]

theorem gameInv_mk_unfin (g : Game) (hpk : PkInv g.pk) (hps : g.playerStacks.length = 6)
    (hfin : g.stateS.isFinished = false) : GameInv g := by
  refine ⟨hpk, hps, ?_, ?_, ?_, ?_, ?_, ?_⟩ <;>
    exact fun hf => absurd hf (by rw [hfin]; exact Bool.false_ne_true)

theorem gameInv_determineWinner (g : Game) (hg : GameInv g) (hq : g.pk.queue = []) :
    GameInv (determineWinner g) := by
  have hlen6 := hg.pk.base.lenStacks
  have hholes := hg.pk.base.holes
  simp only [determineWinner]
  cases hact : (List.range 6).filter
      (fun i => ((g.pk.holeCards.getD i []).length == 2) && g.pk.statuses.getD i false) with
  | nil => exact hg
  | cons w rest =>
    dsimp only
    refine ⟨hg.pk, ?_, fun _ => hq, fun _ => ?_, fun _ => rfl, fun _ => ?_,
      fun _ => ?_, fun _ => ?_⟩
    · show (g.playerStacks.set _ _).length = 6
      rw [List.length_set]
      exact hg.lenPS
    · show ((List.range 6).map (mkPlayerS g.pk g.positions g.uniqueHoleCards)).map
        (fun p => p.stack) = g.pk.stacks'
      rw [List.map_map]
      exact eta_range_getD 0 6 g.pk.stacks' hlen6
    · show ((List.range 6).map (mkPlayerS g.pk g.positions g.uniqueHoleCards)).length = 6
      simp
    · intro i hi
      show (((List.range 6).map (mkPlayerS g.pk g.positions g.uniqueHoleCards)).getD
        i default).isFolded = (g.pk.statuses.getD i false == false)
      rw [getD_range_map_self _ 6 i default hi]
      rfl
    · intro i hi hst
      show (((List.range 6).map (mkPlayerS g.pk g.positions g.uniqueHoleCards)).getD
        i default).holeCards = g.pk.holeCards.getD i []
      rw [getD_range_map_self _ 6 i default hi]
      show apiHoleCards g.pk g.uniqueHoleCards i = g.pk.holeCards.getD i []
      exact apiHoleCards_active _ _ _ ((hholes i hi).1 hst)

theorem streetQueue_of_noactive (pk : PK)
    (hna : ((List.range 6).any
      (fun i => pk.statuses.getD i false && decide (0 < pk.stacks'.getD i 0))) = false) :
    pk.streetQueue = [] := by
  unfold PK.streetQueue
  rw [List.filter_eq_nil_iff]
  intro a ha
  have := List.any_eq_false.mp hna a ha
  simpa using this

theorem streetQueue_frame (pk : PK) (b dk : List Card) (td : Nat) :
    PK.streetQueue { pk with board := b, deck := dk, toDeal := td } = pk.streetQueue := rfl

theorem dealOnce_keeps_empty (pk : PK) (hq : pk.queue = []) (hs : pk.streetQueue = []) :
    pk.dealOnce.queue = [] ∧ pk.dealOnce.streetQueue = [] := by
  unfold PK.dealOnce
  split
  case isFalse => exact ⟨hq, hs⟩
  case isTrue =>
    cases hdeck : pk.deck with
    | nil => exact ⟨hq, hs⟩
    | cons c rest =>
      dsimp only
      split
      · simp only [PK.startBettingOrSkip]
        rw [streetQueue_frame, hs]
        rw [if_pos (by simp)]
        unfold PK.advanceStreet
        split
        · exact ⟨rfl, hs⟩
        · exact ⟨rfl, hs⟩
      · exact ⟨hq, hs⟩

theorem dealAll_keeps_empty (n : Nat) (pk : PK) (hq : pk.queue = [])
    (hs : pk.streetQueue = []) :
    (PK.dealAllRemaining n pk).queue = [] := by
  induction n generalizing pk with
  | zero => exact hq
  | succ m ih =>
    simp only [PK.dealAllRemaining]
    split
    case isFalse => exact hq
    case isTrue =>
      by_cases hb : pk.canBurn = true
      · rw [if_pos hb]
        split
        · have hk := dealOnce_keeps_empty pk.burnOne hq hs
          exact ih _ hk.1 hk.2
        · exact hq
      · rw [if_neg hb]
        split
        · have hk := dealOnce_keeps_empty pk hq hs
          exact ih _ hk.1 hk.2
        · exact hq

theorem pkInv_dealStreet (pk : PK) (h : PkInv pk) : PkInv (dealStreet pk) := by
  unfold dealStreet
  split
  case isFalse => exact h
  case isTrue =>
    split
    · exact pkInv_dealOnce _ (pkInv_dealOnce _ (pkInv_dealOnce _ h))
    · exact pkInv_dealOnce _ h
    · exact pkInv_dealOnce _ h
    · exact h

theorem queue_eq_nil_of_actor_none (pk : PK) (h : pk.actorIdx.isNone = true) :
    pk.queue = [] := by
  unfold PK.actorIdx at h
  rw [Option.isNone_iff_eq_none] at h
  exact List.head?_eq_none_iff.mp h

theorem gameInv_progressTail (g : Game) (pk2 : PK) (hpk2 : PkInv pk2)
    (hps : g.playerStacks.length = 6) (hfin : g.stateS.isFinished = false) :
    GameInv (progressTail g pk2) := by
  unfold progressTail
  split
  case isTrue hend =>
    rw [Bool.or_eq_true] at hend
    have hq2 : pk2.queue = [] := by
      rcases hend with hle | hboard
      · rw [decide_eq_true_eq] at hle
        by_contra hne
        have := hpk2.queueActive hne
        omega
      · rw [Bool.and_eq_true] at hboard
        exact queue_eq_nil_of_actor_none _ hboard.2
    refine gameInv_determineWinner _ ?_ hq2
    exact gameInv_mk_unfin _ hpk2 hps hfin
  case isFalse => exact gameInv_mk_unfin _ hpk2 hps hfin

theorem gameInv_handleProgression (g : Game) (hg : GameInv g)
    (hfin : g.stateS.isFinished = false) : GameInv (handleProgression g) := by
  unfold handleProgression
  split
  case isTrue hall =>
    unfold PK.allInSituation at hall
    rw [Bool.and_eq_true] at hall
    have hq : g.pk.queue = [] := queue_eq_nil_of_actor_none g.pk hall.1
    have hna := hall.2
    rw [Bool.not_eq_true'] at hna
    have hsq : g.pk.streetQueue = [] := streetQueue_of_noactive g.pk hna
    have hq2 : (PK.dealAllRemaining 12 g.pk).queue = [] := dealAll_keeps_empty 12 g.pk hq hsq
    refine gameInv_determineWinner _ ?_ hq2
    exact gameInv_mk_unfin _ (pkInv_dealAllRemaining 12 g.pk hg.pk) hg.lenPS hfin
  case isFalse =>
    have hpk2 : PkInv (dealStreet (if g.pk.canBurn then g.pk.burnOne else g.pk)) := by
      apply pkInv_dealStreet
      split
      · exact pkInv_burnOne _ hg.pk
      · exact hg.pk
    exact gameInv_progressTail g _ hpk2 hg.lenPS hfin

theorem gameInv_executeAction (g : Game) (pid : Int) (act : ActionType) (amount : Int)
    (hg : GameInv g) : GameInv (executeAction g pid act amount).2 := by
  unfold executeAction
  cases hA : g.pk.actorIdx with
  | none => exact hg
  | some a =>
    dsimp only
    by_cases hbne : (((a : Nat) : Int) != pid - 1) = true
    case pos =>
      rw [if_pos hbne]
      exact hg
    case neg =>
      rw [if_neg hbne]
      have step : ∀ (pk1 : PK) (act2 : ActionType) (amt2 : Int), PkInv pk1 →
          GameInv (finishStep g pid act2 amt2 pk1).2 := by
        intro pk1 act2 amt2 hpk1
        unfold finishStep
        apply gameInv_handleProgression
        · exact gameInv_mk_unfin _ hpk1 hg.lenPS (createApiState_isFinished _ _ _ _)
        · exact createApiState_isFinished _ _ _ _
      cases act with
      | fold =>
        dsimp only
        split
        · exact step _ _ _ (pkInv_doFold g.pk a hg.pk hA)
        · exact hg
      | check =>
        dsimp only
        split
        · split
          · exact step _ _ _ (pkInv_doCheckOrCall g.pk a hg.pk hA)
          · exact hg
        · exact hg
      | call =>
        dsimp only
        split
        · exact step _ _ _ (pkInv_doCheckOrCall g.pk a hg.pk hA)
        · exact hg
      | bet =>
        dsimp only
        split
        case isTrue hc => exact step _ _ _ (pkInv_doCompleteTo g.pk a amount hg.pk hA hc)
        case isFalse => exact hg
      | raise =>
        dsimp only
        split
        case isTrue hc => exact step _ _ _ (pkInv_doCompleteTo g.pk a amount hg.pk hA hc)
        case isFalse => exact hg
      | allIn =>
        dsimp only
        split
        case isTrue hc =>
          rw [Bool.and_eq_true] at hc
          exact step _ _ _ (pkInv_doCompleteTo g.pk a _ hg.pk hA hc.2)
        case isFalse => exact hg

theorem gameInv_getGameState (g : Game) (hg : GameInv g) : GameInv (getGameState g).1 := by
  unfold getGameState
  split
  · exact hg
  · exact gameInv_mk_unfin _ hg.pk hg.lenPS (createApiState_isFinished _ _ _ _)


/-! ### The invariant holds in every reachable state -/

theorem get?_eq_some_getD {α : Type} (l : List α) (k : Nat) (d : α) (h : k < l.length) :
    l.get? k = some (l.getD k d) := by
  rw [List.get?_eq_getElem?, List.getD_eq_getElem?_getD, List.getElem?_eq_getElem h]
  rfl

theorem initialHole_pair (d1 : List Card) (i : Nat) (hi : i < 6) (hlen : d1.length = 52) :
    initialHole d1 i = [(d1.take 12).getD i c0, (d1.take 12).getD (6 + i) c0] := by
  have hl12 : (d1.take 12).length = 12 := by rw [List.length_take]; omega
  have h1 : (d1.take 12).get? i = some ((d1.take 12).getD i c0) :=
    get?_eq_some_getD _ _ _ (by omega)
  have h2 : (d1.take 12).get? (6 + i) = some ((d1.take 12).getD (6 + i) c0) :=
    get?_eq_some_getD _ _ _ (by omega)
  unfold initialHole
  rw [List.filterMap_cons, List.filterMap_cons, List.filterMap_nil]
  rw [h1, h2]

theorem join_initialHole (d1 : List Card) (hlen : d1.length = 52) :
    (((List.range 6).map (initialHole d1)).join).Perm (d1.take 12) := by
  have e0 := initialHole_pair d1 0 (by omega) hlen
  have e1 := initialHole_pair d1 1 (by omega) hlen
  have e2 := initialHole_pair d1 2 (by omega) hlen
  have e3 := initialHole_pair d1 3 (by omega) hlen
  have e4 := initialHole_pair d1 4 (by omega) hlen
  have e5 := initialHole_pair d1 5 (by omega) hlen
  have hr6 : List.range 6 = [0, 1, 2, 3, 4, 5] := by decide
  have hj : (((List.range 6).map (initialHole d1)).join) =
      [(d1.take 12).getD 0 c0, (d1.take 12).getD 6 c0,
       (d1.take 12).getD 1 c0, (d1.take 12).getD 7 c0,
       (d1.take 12).getD 2 c0, (d1.take 12).getD 8 c0,
       (d1.take 12).getD 3 c0, (d1.take 12).getD 9 c0,
       (d1.take 12).getD 4 c0, (d1.take 12).getD 10 c0,
       (d1.take 12).getD 5 c0, (d1.take 12).getD 11 c0] := by
    rw [hr6]
    simp only [List.map_cons, List.map_nil, List.join]
    rw [e0, e1, e2, e3, e4, e5]
    simp
  rw [hj]
  have hidx : ([0, 6, 1, 7, 2, 8, 3, 9, 4, 10, 5, 11] : List Nat).Perm (List.range 12) := by
    decide
  have hmap := hidx.map (fun k => (d1.take 12).getD k c0)
  have hrange : (List.range 12).map (fun k => (d1.take 12).getD k c0) = d1.take 12 :=
    eta_range_getD c0 12 _ (by rw [List.length_take]; omega)
  rw [hrange] at hmap
  exact hmap

theorem exists_six {α : Type} (l : List α) (h : l.length = 6) :
    ∃ a b c d e f, l = [a, b, c, d, e, f] := by
  cases l with
  | nil => simp at h
  | cons a l0 =>
  cases l0 with
  | nil => simp at h
  | cons b l1 =>
  cases l1 with
  | nil => simp at h
  | cons c l2 =>
  cases l2 with
  | nil => simp at h
  | cons d l3 =>
  cases l3 with
  | nil => simp at h
  | cons e l4 =>
  cases l4 with
  | nil => simp at h
  | cons f l5 =>
  cases l5 with
  | nil => exact ⟨a, b, c, d, e, f, rfl⟩
  | cons x l6 => simp at h

theorem getD_replicate_lt {α : Type} (n i : Nat) (x d : α) (h : i < n) :
    (List.replicate n x).getD i d = x := by
  induction n generalizing i with
  | zero => omega
  | succ m ih =>
    cases i with
    | zero => rfl
    | succ k => exact ih k (by omega)

theorem gameInv_mkGame (stacksIn : List Int) (d1 pkRest d2 : List Card)
    (h : validInit stacksIn d1 pkRest d2) : GameInv (mkGame stacksIn d1 pkRest d2) := by
  obtain ⟨hlen, hpos, hnd1, hd1len, hndTake, hnd2, hd2len⟩ := h
  have hs6 : (stacksIn.map Int.toNat).length = 6 := by simp [hlen]
  obtain ⟨a, b, c, d, e, f, hs⟩ := exists_six _ hs6
  have hss : (mkPK stacksIn d1 pkRest).startingStacks = stacksIn.map Int.toNat := rfl
  have hstat : (mkPK stacksIn d1 pkRest).statuses = List.replicate 6 true := rfl
  have hhc : (mkPK stacksIn d1 pkRest).holeCards = (List.range 6).map (initialHole d1) := rfl
  have hstk : (mkPK stacksIn d1 pkRest).stacks' =
      [(stacksIn.map Int.toNat).getD 0 0 - Nat.min 20 ((stacksIn.map Int.toNat).getD 0 0),
       (stacksIn.map Int.toNat).getD 1 0 - Nat.min 40 ((stacksIn.map Int.toNat).getD 1 0),
       (stacksIn.map Int.toNat).getD 2 0, (stacksIn.map Int.toNat).getD 3 0,
       (stacksIn.map Int.toNat).getD 4 0, (stacksIn.map Int.toNat).getD 5 0] := rfl
  have hbets : (mkPK stacksIn d1 pkRest).bets =
      [Nat.min 20 ((stacksIn.map Int.toNat).getD 0 0),
       Nat.min 40 ((stacksIn.map Int.toNat).getD 1 0), 0, 0, 0, 0] := rfl
  have hpot : (mkPK stacksIn d1 pkRest).pot = 0 := rfl
  have hboard : (mkPK stacksIn d1 pkRest).board = [] := rfl
  have hdeck : (mkPK stacksIn d1 pkRest).deck = pkRest := rfl
  have hqueue : (mkPK stacksIn d1 pkRest).queue =
      (if ([2, 3, 4, 5, 0, 1].filter
            (fun i => decide (0 < (mkPK stacksIn d1 pkRest).stacks'.getD i 0))).length ≤ 1
       then []
       else [2, 3, 4, 5, 0, 1].filter
            (fun i => decide (0 < (mkPK stacksIn d1 pkRest).stacks'.getD i 0))) := rfl
  rw [hs] at hstk hbets
  simp only [List.getD_cons_zero, List.getD_cons_succ] at hstk hbets
  have h20 : Nat.min 20 a ≤ a := Nat.min_le_right _ _
  have h40 : Nat.min 40 b ≤ b := Nat.min_le_right _ _
  have hPkInv : PkInv (mkPK stacksIn d1 pkRest) := by
    refine ⟨⟨by rw [hstk]; rfl, by rw [hbets]; rfl, by rw [hstat]; rfl, by rw [hhc]; simp,
      by rw [hss, hs]; rfl, ?_, ?_, ?_, ?_, ?_⟩, ?_⟩
    · -- chip conservation at start
      rw [hstk, hbets, hpot, hss, hs]
      simp only [List.sum_cons, List.sum_nil]
      omega
    · -- queue nodup
      rw [hqueue]
      split
      · exact List.nodup_nil
      · exact List.Nodup.filter _ (by decide)
    · -- queue members
      intro i hi
      rw [hqueue] at hi
      split at hi
      · simp at hi
      · have hmf := List.mem_filter.mp hi
        have hi6 : i < 6 := by
          have h1 := hmf.1
          simp only [List.mem_cons, List.not_mem_nil, or_false] at h1
          omega
        refine ⟨hi6, ?_, ?_⟩
        · rw [hstat]
          exact getD_replicate_lt 6 i true false hi6
        · simpa using hmf.2
    · -- card uniqueness
      rw [hhc, hboard, hdeck]
      rw [List.nil_append]
      have hperm := (join_initialHole d1 hd1len).append_right pkRest
      exact hperm.nodup_iff.mpr hndTake
    · -- two hole cards for the active
      intro i hi
      rw [hstat, hhc, getD_replicate_lt 6 i true false hi]
      constructor
      · intro _
        rw [getD_range_map_self _ 6 i _ hi, initialHole_pair d1 i hi hd1len]
        rfl
      · intro hfalse
        cases hfalse
    · -- a nonempty queue has at least two active players behind it
      intro _
      have : (mkPK stacksIn d1 pkRest).activeCount =
          ((List.range 6).filter (fun i => (List.replicate 6 true).getD i false)).length := by
        unfold PK.activeCount PK.activeIdxs
        rw [hstat]
      rw [this]
      decide
  exact gameInv_mk_unfin _ hPkInv hlen (createApiState_isFinished _ _ _ _)

theorem reachable_gameInv (g : Game) (h : Reachable g) : GameInv g := by
  induction h with
  | init s d1 r d2 hv => exact gameInv_mkGame s d1 r d2 hv
  | step g g2 pid act amount hg h2 ih =>
    have h3 := gameInv_executeAction g pid act amount ih
    rw [h2] at h3
    exact h3
  | snap g hg ih => exact gameInv_getGameState g ih


/-! ### Helper lemmas for the claims -/

theorem reach_step (g : Game) (pid : Int) (act : ActionType) (amount : Int)
    (hg : Reachable g) (hb : (executeAction g pid act amount).1 = true) :
    Reachable (executeAction g pid act amount).2 := by
  refine Reachable.step g _ pid act amount hg ?_
  have he : executeAction g pid act amount
      = ((executeAction g pid act amount).1, (executeAction g pid act amount).2) := rfl
  rw [he, hb]

theorem exec_not_actor (g : Game) (pid : Int) (act : ActionType) (amount : Int)
    (h : ∀ x, g.pk.actorIdx = some x → ((x : Nat) : Int) ≠ pid - 1) :
    executeAction g pid act amount = (false, g) := by
  unfold executeAction
  cases hA : g.pk.actorIdx with
  | none => rfl
  | some x =>
    dsimp only
    rw [if_pos (bne_iff_ne.mpr (h x hA))]

theorem validInit_concrete : validInit stacks1000 deckA deckRest deckB := by
  refine ⟨by decide, by decide, by decide, by decide, ?_, by decide, by decide⟩
  decide

theorem range6_bind_getD {α : Type} (l : List (List α)) (h : l.length = 6) :
    (List.range 6).bind (fun i => l.getD i []) = l.join := by
  obtain ⟨a, b, c, d, e, f, rfl⟩ := exists_six l h
  rfl


/-! ### Claims -/

/-- Claim C1 counterexample: after the six accepted pre-flop actions of
`c1run` (five calls and a check) the flop snapshot reports the collected
bets nowhere — the six reported stacks sum to 5760 and the reported pot is
0, so stacks + pot = 5760 ≠ 6000, the sum of the initial stacks. -/
theorem c1_counterexample :
    c1run.2 = true ∧
    (getGameState c1run.1).2.stage = GameStage.flop ∧
    ((((getGameState c1run.1).2.players.map (fun p => p.stack)).sum : Int)
      + (getGameState c1run.1).2.pot ≠ stacks1000.sum) := by
  decide

/-- Claim C2 counterexample: after one accepted fold the snapshot shows
the folded player a fallback hole-card pair drawn from an independent
shuffle, and that pair collides with cards other players hold from the
real deal: the multiset of displayed hole cards plus community cards has a
repeat. -/
theorem c2_counterexample :
    c2run.2 = true ∧ ¬ (snapCards (getGameState c2run.1).2).Nodup := by
  decide

/-- Claim C3: in the `c3run` hand players 1 and 3 check the river down to
a two-player showdown, yet the recorded winner is player 2 — who folded
pre-flop — because `_determine_winner` adds 1 to the already 1-indexed
result of `_evaluate_showdown_with_pokerkit`; the folded player's
`player_stacks` entry also receives the 200-chip pot. -/
theorem c3_showdown_winner_folded :
    c3run.2 = true ∧
    c3run.1.stateS.isFinished = true ∧
    c3run.1.stateS.stage = GameStage.finished ∧
    c3run.1.stateS.winnerId = some 2 ∧
    (c3run.1.stateS.players.getD 1 default).isFolded = true ∧
    c3run.1.stateS.pot = 200 ∧
    c3run.1.playerStacks.getD 1 0 = 1200 := by
  decide

/-- Claim C4 counterexample: five folds leave player 2 the sole active
player; the hand finishes with `winner_id = 2`, but the reason reads
"Player 2 wins the hand" (not "... wins (all others folded)") and the
reported stack of the winner stays 980 — the 40-chip pot is credited only
to the internal `player_stacks` dict. -/
theorem c4_counterexample :
    c4run.2 = true ∧
    c4run.1.stateS.isFinished = true ∧
    c4run.1.stateS.winnerId = some 2 ∧
    c4run.1.stateS.winnerReason = "Player 2 wins the hand" ∧
    c4run.1.stateS.winnerReason ≠ "Player 2 wins (all others folded)" ∧
    c4run.1.stateS.pot = 40 ∧
    (c4run.1.stateS.players.getD 1 default).stack = 980 ∧
    c4run.1.playerStacks.getD 1 0 = 1040 := by
  decide

/-- Claim C5: `execute_action` called for any player other than the
current pokerkit actor returns `False` and leaves the whole game object —
stacks, bets, pot, stage, community cards and action log included —
unchanged, for every action and amount. -/
theorem c5_turn_violation_atomic (g : Game) (pid : Int) (act : ActionType) (amount : Int)
    (h : ∀ x, g.pk.actorIdx = some x → ((x : Nat) : Int) ≠ pid - 1) :
    executeAction g pid act amount = (false, g) :=
  exec_not_actor g pid act amount h

/-- Claim C5 witness: in the freshly started hand the actor is seat 2
(player 3), so a fold by player 1 is rejected with no state change. -/
theorem c5_witness : executeAction g0c 1 ActionType.fold 0 = (false, g0c) := by
  refine c5_turn_violation_atomic g0c 1 ActionType.fold 0 ?_
  intro x hx
  have h2 : g0c.pk.actorIdx = some 2 := by decide
  rw [h2] at hx
  injection hx with hx2
  subst hx2
  decide

/-- Claim C6: the `/api/poker/start` endpoint rejects a request whose
stack mapping does not have exactly six entries with
`InvalidPlayerCount`, and a six-entry request containing a non-positive
stack with `InvalidStack`; in both cases no game is constructed. -/
theorem c6_construction_validation (ps : List (Int × Int)) (d1 pkRest d2 : List Card) :
    (ps.length ≠ 6 → startGame ps d1 pkRest d2 = Except.error StartError.invalidPlayerCount) ∧
    ((∃ kv ∈ ps, kv.2 ≤ 0) → ps.length = 6 →
      startGame ps d1 pkRest d2 = Except.error StartError.invalidStack) := by
  constructor
  · intro h
    unfold startGame
    rw [if_pos h]
  · rintro ⟨kv, hmem, hle⟩ h6
    unfold startGame
    rw [if_neg (by omega)]
    rw [if_pos (List.any_eq_true.mpr ⟨kv, hmem, decide_eq_true hle⟩)]

/-- Claim C6 witness: a five-player request fails with
`InvalidPlayerCount` and a six-player request with a zero stack fails
with `InvalidStack`. -/
theorem c6_witness :
    startGame [((1 : Int), (100 : Int)), (2, 100), (3, 100), (4, 100), (5, 100)]
        deckA deckRest deckB = Except.error StartError.invalidPlayerCount ∧
    startGame [((1 : Int), (0 : Int)), (2, 100), (3, 100), (4, 100), (5, 100), (6, 100)]
        deckA deckRest deckB = Except.error StartError.invalidStack :=
  ⟨(c6_construction_validation _ deckA deckRest deckB).1 (by decide),
   (c6_construction_validation _ deckA deckRest deckB).2
     ⟨((1 : Int), (0 : Int)), by decide, by decide⟩ (by decide)⟩

/-- Claim C7 counterexample: player 3 holds a positive stack of 30 and is
the current actor, yet all-in is absent from the valid actions because 30
does not exceed the 40-chip big blind and
`can_complete_bet_or_raise_to(30)` fails. -/
theorem c7_counterexample :
    g7c.pk.actorIdx = some 2 ∧
    0 < g7c.pk.stacks'.getD 2 0 ∧
    ActionType.allIn ∉ getValidActions g7c 3 ∧
    getValidActions g7c 3 = [ActionType.fold, ActionType.call] := by
  decide


/-- Claim C1 amended: chip conservation holds at the engine level — in
every reachable state the pokerkit stacks plus the pending bets plus the
collected pot equal the starting stacks — and every snapshot reports
exactly the engine stacks; the snapshot's `pot` field, however, is only
the sum of the current street's uncollected bets, so the spec's
`sum(stack) + pot` identity fails once bets are collected. -/
theorem c1_chip_conservation_amended (g : Game) (hr : Reachable g) :
    g.pk.stacks'.sum + (g.pk.bets.sum + g.pk.pot) = g.pk.startingStacks.sum ∧
    (getGameState g).2.players.map (fun p => p.stack) = g.pk.stacks' := by
  have hg := reachable_gameInv g hr
  constructor
  · exact hg.pk.base.chips
  · unfold getGameState
    by_cases hfin : g.stateS.isFinished = true
    · rw [if_pos hfin]
      exact hg.finStack hfin
    · rw [if_neg hfin]
      exact createApiState_map_stack _ _ _ _ hg.pk.base.lenStacks

/-- Claim C1 amended witness: the conservation identity and the
stack-agreement at the freshly started all-1000 hand. -/
theorem c1_amended_witness :
    (mkGame stacks1000 deckA deckRest deckB).pk.stacks'.sum
        + ((mkGame stacks1000 deckA deckRest deckB).pk.bets.sum
          + (mkGame stacks1000 deckA deckRest deckB).pk.pot)
      = (mkGame stacks1000 deckA deckRest deckB).pk.startingStacks.sum ∧
    (getGameState (mkGame stacks1000 deckA deckRest deckB)).2.players.map (fun p => p.stack)
      = (mkGame stacks1000 deckA deckRest deckB).pk.stacks' :=
  c1_chip_conservation_amended _
    (Reachable.init stacks1000 deckA deckRest deckB validInit_concrete)

/-- Claim C2 amended: card uniqueness holds for the cards actually in
play — in every reachable state the engine hole cards of the non-folded
players together with the community cards are pairwise distinct — and the
snapshot agrees with the engine on the board and on every non-folded
player's hole cards; the displayed cards of folded players come from an
independent fallback shuffle and may repeat cards in play. -/
theorem c2_card_uniqueness_amended (g : Game) (hr : Reachable g) :
    ((g.pk.activeIdxs.bind (fun i => g.pk.holeCards.getD i [])) ++ g.pk.board).Nodup ∧
    (getGameState g).2.communityCards = g.pk.board ∧
    (∀ i, i < 6 → g.pk.statuses.getD i false = true →
      ((getGameState g).2.players.getD i default).holeCards = g.pk.holeCards.getD i []) := by
  have hg := reachable_gameInv g hr
  refine ⟨?_, ?_, ?_⟩
  · have h1 : g.pk.activeIdxs.Sublist (List.range 6) := List.filter_sublist _ -- check name
    have h2 := sublist_bind (fun i => g.pk.holeCards.getD i []) h1
    rw [range6_bind_getD _ hg.pk.base.lenHoles] at h2
    have hsub : ((g.pk.activeIdxs.bind (fun i => g.pk.holeCards.getD i [])) ++ g.pk.board).Sublist
        (g.pk.holeCards.join ++ (g.pk.board ++ g.pk.deck)) :=
      List.Sublist.append h2 (List.sublist_append_left _ _)
    exact hg.pk.base.cards.sublist hsub
  · unfold getGameState
    by_cases hfin : g.stateS.isFinished = true
    · rw [if_pos hfin]
      exact hg.finBoard hfin
    · rw [if_neg hfin]
      exact createApiState_board _ _ _ _
  · intro i hi hact
    unfold getGameState
    by_cases hfin : g.stateS.isFinished = true
    · rw [if_pos hfin]
      exact hg.finHole hfin i hi hact
    · rw [if_neg hfin]
      show ((createApiState g.pk g.positions g.uniqueHoleCards g.stateS).players.getD
        i default).holeCards = _
      rw [createApiState_getD_player _ _ _ _ i hi]
      exact apiHoleCards_active _ _ _ ((hg.pk.base.holes i hi).1 hact)

/-- Claim C2 amended witness: active-card uniqueness and snapshot
agreement at the freshly started all-1000 hand. -/
theorem c2_amended_witness :
    (((mkGame stacks1000 deckA deckRest deckB).pk.activeIdxs.bind
        (fun i => (mkGame stacks1000 deckA deckRest deckB).pk.holeCards.getD i []))
      ++ (mkGame stacks1000 deckA deckRest deckB).pk.board).Nodup ∧
    (getGameState (mkGame stacks1000 deckA deckRest deckB)).2.communityCards
      = (mkGame stacks1000 deckA deckRest deckB).pk.board ∧
    (∀ i, i < 6 →
      (mkGame stacks1000 deckA deckRest deckB).pk.statuses.getD i false = true →
      ((getGameState (mkGame stacks1000 deckA deckRest deckB)).2.players.getD
          i default).holeCards
        = (mkGame stacks1000 deckA deckRest deckB).pk.holeCards.getD i []) :=
  c2_card_uniqueness_amended _
    (Reachable.init stacks1000 deckA deckRest deckB validInit_concrete)


/-- Claim C8: `get_valid_actions(player_id)` returns the empty list
whenever `player_id` is not the current actor — in particular for every
player once no actor exists — and for every seat whose player is folded
or all-in (stack 0): such a seat is never the actor, so its player id
fails the actor test. -/
theorem c8_valid_actions_empty (g : Game) (hr : Reachable g) :
    (∀ pid : Int, (∀ x, g.pk.actorIdx = some x → ((x : Nat) : Int) ≠ pid - 1) →
      getValidActions g pid = []) ∧
    (∀ i : Nat, i < 6 →
      (g.pk.statuses.getD i false = false ∨ g.pk.stacks'.getD i 0 = 0) →
      getValidActions g ((i : Int) + 1) = []) := by
  have hg := reachable_gameInv g hr
  constructor
  · intro pid h
    unfold getValidActions
    cases hA : g.pk.actorIdx with
    | none => rfl
    | some x =>
      dsimp only
      rw [if_pos (bne_iff_ne.mpr (h x hA))]
  · intro i hi hcond
    unfold getValidActions
    cases hA : g.pk.actorIdx with
    | none => rfl
    | some x =>
      dsimp only
      have hmem : x ∈ g.pk.queue := by
        obtain ⟨t, ht⟩ := actor_queue_cons g.pk x hA
        rw [ht]
        exact List.mem_cons_self _ _
      have hx := hg.pk.base.queueMem x hmem
      have hxi : x ≠ i := by
        rintro rfl
        rcases hcond with hc | hc
        · rw [hx.2.1] at hc
          exact Bool.noConfusion hc
        · omega
      rw [if_pos (bne_iff_ne.mpr (by omega : ((x : Nat) : Int) ≠ (i : Int) + 1 - 1))]

/-- Claim C8 witness: after player 3 folds, player 3 (seat 2, now folded)
gets no valid actions. -/
theorem c8_witness :
    getValidActions (executeAction g0c 3 ActionType.fold 0).2 (((2 : Nat) : Int) + 1) = [] :=
  (c8_valid_actions_empty _
      (reach_step g0c 3 ActionType.fold 0
        (Reachable.init stacks1000 deckA deckRest deckB validInit_concrete)
        (by decide))).2
    2 (by decide) (Or.inl (by decide))

/-- Claim C10: once the cached state reports the hand finished, every
`execute_action` call returns `False` with the game object unchanged,
`get_valid_actions` is empty for every player, and `get_game_state`
returns the cached snapshot as is — so `winner_id`, `winner_reason`,
`stage` and `pot` are preserved by repeated snapshots. -/
theorem c10_terminal_absorption (g : Game) (hr : Reachable g)
    (hfin : g.stateS.isFinished = true) :
    (∀ (pid : Int) (act : ActionType) (amount : Int),
        executeAction g pid act amount = (false, g)) ∧
    (∀ pid : Int, getValidActions g pid = []) ∧
    getGameState g = (g, g.stateS) := by
  have hg := reachable_gameInv g hr
  have hq : g.pk.queue = [] := hg.finQueue hfin
  have hA : g.pk.actorIdx = none := by
    unfold PK.actorIdx
    rw [hq]
    rfl
  refine ⟨?_, ?_, ?_⟩
  · intro pid act amount
    refine exec_not_actor g pid act amount ?_
    intro x hx
    rw [hA] at hx
    exact Option.noConfusion hx
  · intro pid
    unfold getValidActions
    rw [hA]
  · unfold getGameState
    rw [if_pos hfin]

/-- Claim C10 witness: the five-fold hand is finished; a further call by
the winner is rejected without state change, no actions are valid, and
the snapshot is absorbed. -/
theorem c10_witness :
    executeAction gf5 2 ActionType.call 0 = (false, gf5) ∧
    getValidActions gf5 4 = [] ∧
    getGameState gf5 = (gf5, gf5.stateS) := by
  have hr : Reachable gf5 :=
    reach_step gf4 1 .fold 0
      (reach_step gf3 6 .fold 0
        (reach_step gf2 5 .fold 0
          (reach_step gf1 4 .fold 0
            (reach_step g0c 3 .fold 0
              (Reachable.init stacks1000 deckA deckRest deckB validInit_concrete)
              (by decide))
            (by decide))
          (by decide))
        (by decide))
      (by decide)
  have h := c10_terminal_absorption gf5 hr (by decide)
  exact ⟨h.1 2 ActionType.call 0, h.2.1 4, h.2.2⟩


/-- Claim C7 amended: for the current actor, all-in is offered exactly
when the player's stack is positive AND pokerkit accepts a completion to
that stack (`can_complete_bet_or_raise_to`); a positive stack alone is
not sufficient — a stack not exceeding the largest bet, for example,
loses the all-in option. -/
theorem c7_allin_availability_amended (g : Game) (a : Nat)
    (ha : g.pk.actorIdx = some a) :
    (ActionType.allIn ∈ getValidActions g ((a : Int) + 1) ↔
      0 < g.pk.stacks'.getD a 0 ∧
      g.pk.canCompleteTo ((g.pk.stacks'.getD a 0 : Nat) : Int) = true) := by
  unfold getValidActions
  rw [ha]
  dsimp only
  rw [if_neg (by rw [bne_iff_ne]; omega)]
  have h1 : ActionType.allIn ∉ (if g.pk.canFold then [ActionType.fold] else []) := by
    split <;> decide
  have h2 : ActionType.allIn ∉
      (if g.pk.canCheckOrCall then
        (if g.pk.maxBet == g.pk.bets.getD a 0 then [ActionType.check] else [ActionType.call])
      else []) := by
    split
    · split <;> decide
    · decide
  have h3 : ActionType.allIn ∉
      (if g.pk.canCompleteTo ((g.pk.maxBet : Int) + 40) then
        (if g.pk.maxBet == 0 then [ActionType.bet] else [ActionType.raise])
      else []) := by
    split
    · split <;> decide
    · decide
  have h4 : ActionType.allIn ∈
        (if decide (0 < g.pk.stacks'.getD a 0)
            && g.pk.canCompleteTo ((g.pk.stacks'.getD a 0 : Nat) : Int) then
          [ActionType.allIn]
        else ([] : List ActionType)) ↔
      (decide (0 < g.pk.stacks'.getD a 0)
          && g.pk.canCompleteTo ((g.pk.stacks'.getD a 0 : Nat) : Int)) = true := by
    split
    case isTrue ht =>
      constructor
      · intro _
        exact ht
      · intro _
        exact List.mem_singleton_self _
    case isFalse hf =>
      constructor
      · intro hm
        exact absurd hm (List.not_mem_nil _)
      · intro hc
        exact absurd hc hf
  simp only [List.mem_append]
  constructor
  · intro hm
    rcases hm with ((hm1 | hm2) | hm3) | hm4
    · exact absurd hm1 h1
    · exact absurd hm2 h2
    · exact absurd hm3 h3
    · have hc := h4.mp hm4
      rw [Bool.and_eq_true, decide_eq_true_eq] at hc
      exact hc
  · intro hc
    refine Or.inr (h4.mpr ?_)
    rw [Bool.and_eq_true, decide_eq_true_eq]
    exact hc

/-- Claim C7 amended witness: in the freshly started all-1000 hand the
actor (seat 2) holds 1000 chips and can complete to 1000, so all-in is
offered. -/
theorem c7_amended_witness :
    ActionType.allIn ∈
        getValidActions (mkGame stacks1000 deckA deckRest deckB) (((2 : Nat) : Int) + 1) ↔
      0 < (mkGame stacks1000 deckA deckRest deckB).pk.stacks'.getD 2 0 ∧
      (mkGame stacks1000 deckA deckRest deckB).pk.canCompleteTo
          (((mkGame stacks1000 deckA deckRest deckB).pk.stacks'.getD 2 0 : Nat) : Int)
        = true :=
  c7_allin_availability_amended (mkGame stacks1000 deckA deckRest deckB) 2 (by decide)

/-- Claim C9: starting a hand with all six stacks 1000, the snapshot
before any action reports pot 60, current bet 40, stage pre-flop, and the
uniquely flagged small-blind and big-blind players hold 980 and 960. -/
theorem c9_initial_state (d1 pkRest d2 : List Card) :
    (mkGame stacks1000 d1 pkRest d2).stateS.pot = 60 ∧
    (mkGame stacks1000 d1 pkRest d2).stateS.currentBet = 40 ∧
    (mkGame stacks1000 d1 pkRest d2).stateS.stage = GameStage.preflop ∧
    (∃ p ∈ (mkGame stacks1000 d1 pkRest d2).stateS.players, p.isSmallBlind = true) ∧
    (∀ p ∈ (mkGame stacks1000 d1 pkRest d2).stateS.players,
      p.isSmallBlind = true → p.stack = 980) ∧
    (∃ p ∈ (mkGame stacks1000 d1 pkRest d2).stateS.players, p.isBigBlind = true) ∧
    (∀ p ∈ (mkGame stacks1000 d1 pkRest d2).stateS.players,
      p.isBigBlind = true → p.stack = 960) := by
  have hpl : (mkGame stacks1000 d1 pkRest d2).stateS.players
      = (List.range 6).map (mkPlayerS (mkPK stacks1000 d1 pkRest)
          (storePositions (mkPK stacks1000 d1 pkRest).bets) (mkUnique d2)) := rfl
  refine ⟨rfl, rfl, rfl, ?_, ?_, ?_, ?_⟩
  · rw [hpl]
    exact ⟨_, List.mem_map.mpr ⟨0, by decide, rfl⟩, rfl⟩
  · intro p hp
    rw [hpl] at hp
    obtain ⟨i, hir, rfl⟩ := List.mem_map.mp hp
    have hi : i < 6 := List.mem_range.mp hir
    interval_cases i <;>
      first
      | (intro h; exact Bool.noConfusion h)
      | (intro _; rfl)
  · rw [hpl]
    exact ⟨_, List.mem_map.mpr ⟨1, by decide, rfl⟩, rfl⟩
  · intro p hp
    rw [hpl] at hp
    obtain ⟨i, hir, rfl⟩ := List.mem_map.mp hp
    have hi : i < 6 := List.mem_range.mp hir
    interval_cases i <;>
      first
      | (intro h; exact Bool.noConfusion h)
      | (intro _; rfl)


/-! ### Frame lemmas for the fold-out analysis -/

theorem statuses_advanceStreet (pk : PK) : pk.advanceStreet.statuses = pk.statuses := by
  unfold PK.advanceStreet
  split <;> rfl

theorem statuses_startBettingOrSkip (pk : PK) :
    pk.startBettingOrSkip.statuses = pk.statuses := by
  unfold PK.startBettingOrSkip
  dsimp only
  split
  · exact statuses_advanceStreet pk
  · rfl

theorem statuses_dealOnce (pk : PK) : pk.dealOnce.statuses = pk.statuses := by
  unfold PK.dealOnce
  split
  · cases hd : pk.deck with
    | nil => rfl
    | cons c rest =>
      dsimp only
      split
      · exact (statuses_startBettingOrSkip _).trans rfl
      · rfl
  · rfl

theorem statuses_dealAllRemaining (n : Nat) (pk : PK) :
    (PK.dealAllRemaining n pk).statuses = pk.statuses := by
  induction n generalizing pk with
  | zero => rfl
  | succ n ih =>
    unfold PK.dealAllRemaining
    split
    · dsimp only
      by_cases hcb : pk.canBurn = true
      · rw [if_pos hcb]
        by_cases hcd : pk.burnOne.canDealBoard = true
        · rw [if_pos hcd, ih, statuses_dealOnce]
          rfl
        · rw [if_neg hcd]
          rfl
      · rw [if_neg hcb]
        by_cases hcd : pk.canDealBoard = true
        · rw [if_pos hcd, ih, statuses_dealOnce]
        · rw [if_neg hcd]
    · rfl

theorem statuses_afterBettingStep (pk : PK) :
    pk.afterBettingStep.statuses = pk.statuses := by
  unfold PK.afterBettingStep
  split
  · dsimp only
    exact collectBets_statuses pk
  · split
    · exact (statuses_advanceStreet _).trans (collectBets_statuses pk)
    · rfl

theorem statuses_dealStreet (pk : PK) : (dealStreet pk).statuses = pk.statuses := by
  unfold dealStreet
  split
  · split
    · exact (statuses_dealOnce _).trans ((statuses_dealOnce _).trans (statuses_dealOnce _))
    · exact statuses_dealOnce _
    · exact statuses_dealOnce _
    · rfl
  · rfl

theorem pk_determineWinner (g : Game) : (determineWinner g).pk = g.pk := by
  unfold determineWinner
  dsimp only
  split <;> rfl

theorem statuses_handleProgression (g : Game) :
    (handleProgression g).pk.statuses = g.pk.statuses := by
  unfold handleProgression
  split
  · rw [pk_determineWinner]
    exact statuses_dealAllRemaining 12 g.pk
  · unfold progressTail
    split
    all_goals split
    all_goals first
      | (rw [pk_determineWinner]
         exact (statuses_dealStreet _).trans rfl)
      | exact (statuses_dealStreet _).trans rfl

theorem canBurn_showdown (pk : PK) (hp : pk.phase = PKPhase.showdown) :
    pk.canBurn = false := by
  unfold PK.canBurn
  rw [hp]
  rfl

theorem canDealBoard_showdown (pk : PK) (hp : pk.phase = PKPhase.showdown) :
    pk.canDealBoard = false := by
  unfold PK.canDealBoard
  rw [hp]
  rfl

theorem dealAll_showdown (n : Nat) (pk : PK) (hp : pk.phase = PKPhase.showdown) :
    PK.dealAllRemaining n pk = pk := by
  cases n with
  | zero => rfl
  | succ n =>
    unfold PK.dealAllRemaining
    by_cases hb : pk.board.length < 5
    · rw [if_pos hb]
      have hcb : ¬(pk.canBurn = true) := by
        rw [canBurn_showdown pk hp]
        decide
      rw [if_neg hcb]
      dsimp only
      have hcd : ¬(pk.canDealBoard = true) := by
        rw [canDealBoard_showdown pk hp]
        decide
      rw [if_neg hcd]
    · rw [if_neg hb]

theorem doFold_showdown (pk : PK) (a : Nat) (h1 : (PK.doFold pk a).activeCount ≤ 1) :
    (PK.doFold pk a).phase = PKPhase.showdown := by
  have hrfl : PK.doFold pk a
      = ({ pk with statuses := pk.statuses.set a false,
                   holeCards := pk.holeCards.set a [],
                   queue := pk.queue.tail } : PK).afterBettingStep := rfl
  rw [hrfl] at h1 ⊢
  rw [activeCount_congr _ _ (statuses_afterBettingStep _)] at h1
  unfold PK.afterBettingStep
  rw [if_pos h1]

theorem handleProgression_showdown (g : Game)
    (hp : g.pk.phase = PKPhase.showdown) (h1 : g.pk.activeCount ≤ 1) :
    handleProgression g = determineWinner g := by
  unfold handleProgression
  split
  · rw [dealAll_showdown 12 g.pk hp]
  · have hcb : ¬(g.pk.canBurn = true) := by
      rw [canBurn_showdown g.pk hp]
      decide
    rw [if_neg hcb]
    have hds : dealStreet g.pk = g.pk := by
      unfold dealStreet
      have hcd : ¬(g.pk.canDealBoard = true) := by
        rw [canDealBoard_showdown g.pk hp]
        decide
      rw [if_neg hcd]
    rw [hds]
    unfold progressTail
    have hcond : (decide (g.pk.activeCount ≤ 1)
        || (decide (5 ≤ g.pk.board.length) && g.pk.actorIdx.isNone)) = true := by
      rw [decide_eq_true h1]
      exact Bool.true_or _
    rw [if_pos hcond]


theorem determineWinner_single (g : Game) (hg : GameInv g) (w : Nat)
    (hact : g.pk.activeIdxs = [w]) :
    (determineWinner g).stateS.isFinished = true ∧
    (determineWinner g).stateS.stage = GameStage.finished ∧
    (determineWinner g).stateS.winnerId = some (w + 1) ∧
    (determineWinner g).stateS.winnerReason
      = "Player " ++ toString (w + 1) ++ " wins the hand" ∧
    (determineWinner g).playerStacks.getD w 0
      = g.playerStacks.getD w 0 + (determineWinner g).stateS.pot ∧
    ((determineWinner g).stateS.players.getD w default).stack
      = (determineWinner g).pk.stacks'.getD w 0 := by
  have hw6 : w < 6 := by
    have hmem : w ∈ g.pk.activeIdxs := by
      rw [hact]
      exact List.mem_singleton_self _
    unfold PK.activeIdxs at hmem
    exact List.mem_range.mp (List.mem_of_mem_filter hmem)
  have hfeq : (List.range 6).filter
      (fun i => ((g.pk.holeCards.getD i []).length == 2) && g.pk.statuses.getD i false)
      = g.pk.activeIdxs := by
    unfold PK.activeIdxs
    apply List.filter_congr
    intro i hi
    have hi6 : i < 6 := List.mem_range.mp hi
    cases hst : g.pk.statuses.getD i false with
    | false => exact Bool.and_false _
    | true =>
      have hlen : (g.pk.holeCards.getD i []).length = 2 := (hg.pk.base.holes i hi6).1 hst
      rw [hlen]
      rfl
  unfold determineWinner
  dsimp only
  rw [hfeq, hact]
  dsimp only
  rw [if_pos (List.isEmpty_nil : (List.nil : List Nat).isEmpty = true)]
  refine ⟨rfl, rfl, rfl, rfl, ?_, ?_⟩
  · rw [Nat.add_sub_cancel]
    rw [getD_set_self _ _ _ _ (by rw [hg.lenPS]; exact hw6)]
  · rw [createApiState_getD_player _ _ _ _ w hw6]
    rfl


/-- Claim C4 amended: when an accepted fold leaves exactly one active
player, the hand finishes, `winner_id` is that player's id,
`winner_reason` reads "Player <id> wins the hand" (the "(all others
folded)" phrasing of the spec never occurs), the pot is credited to that
player's entry of the internal `player_stacks` dict, and the snapshot
reports the engine stack — which never receives the pot. -/
theorem c4_foldout_amended (g g2 : Game) (pid : Int)
    (hr : Reachable g)
    (hexec : executeAction g pid ActionType.fold 0 = (true, g2))
    (hone : g2.pk.activeCount = 1) :
    g2.stateS.isFinished = true ∧
    g2.stateS.stage = GameStage.finished ∧
    g2.stateS.winnerId = some (g2.pk.activeIdxs.headD 0 + 1) ∧
    g2.stateS.winnerReason
      = "Player " ++ toString (g2.pk.activeIdxs.headD 0 + 1) ++ " wins the hand" ∧
    g2.playerStacks.getD (g2.pk.activeIdxs.headD 0) 0
      = g.playerStacks.getD (g2.pk.activeIdxs.headD 0) 0 + g2.stateS.pot ∧
    (g2.stateS.players.getD (g2.pk.activeIdxs.headD 0) default).stack
      = g2.pk.stacks'.getD (g2.pk.activeIdxs.headD 0) 0 := by
  have hg := reachable_gameInv g hr
  unfold executeAction at hexec
  cases hA : g.pk.actorIdx with
  | none =>
    rw [hA] at hexec
    dsimp only at hexec
    exact Bool.noConfusion (congrArg Prod.fst hexec)
  | some a =>
    rw [hA] at hexec
    dsimp only at hexec
    by_cases hbne : ((a : Int) != pid - 1) = true
    · rw [if_pos hbne] at hexec
      exact Bool.noConfusion (congrArg Prod.fst hexec)
    · rw [if_neg hbne] at hexec
      by_cases hcf : g.pk.canFold = true
      · rw [if_pos hcf] at hexec
        simp only [finishStep] at hexec
        set GG : Game :=
          { g with pk := g.pk.doFold a,
                   stateS := createApiState (g.pk.doFold a) g.positions g.uniqueHoleCards
                     (logAct g.stateS pid ActionType.fold 0) } with hGGdef
        rw [Prod.mk.injEq] at hexec
        obtain ⟨-, hg2⟩ := hexec
        subst hg2
        have hstat := statuses_handleProgression GG
        have honeGG : (PK.doFold g.pk a).activeCount = 1 :=
          (activeCount_congr _ _ hstat).symm.trans hone
        have hgGG : GameInv GG :=
          gameInv_mk_unfin GG (pkInv_doFold g.pk a hg.pk hA) hg.lenPS
            (createApiState_isFinished _ _ _ _)
        have hE := handleProgression_showdown GG
          (doFold_showdown g.pk a (le_of_eq honeGG)) (le_of_eq honeGG)
        rw [hE] at hone ⊢
        rw [pk_determineWinner] at hone ⊢
        obtain ⟨w, hw⟩ := List.length_eq_one.mp
          (show GG.pk.activeIdxs.length = 1 from honeGG)
        rw [hw]
        simp only [List.headD_cons]
        have hds := determineWinner_single GG hgGG w hw
        rw [pk_determineWinner] at hds
        exact hds
      · rw [if_neg hcf] at hexec
        exact Bool.noConfusion (congrArg Prod.fst hexec)


/-- Claim C4 amended witness: the last of the five folds leaves player 2
(seat 1) alone; the hand finishes with winner 2, the "wins the hand"
reason, the 40-chip pot credited to the internal dict entry, and the
snapshot showing the engine stack. -/
theorem c4_amended_witness :
    gf5.stateS.isFinished = true ∧
    gf5.stateS.stage = GameStage.finished ∧
    gf5.stateS.winnerId = some (gf5.pk.activeIdxs.headD 0 + 1) ∧
    gf5.stateS.winnerReason
      = "Player " ++ toString (gf5.pk.activeIdxs.headD 0 + 1) ++ " wins the hand" ∧
    gf5.playerStacks.getD (gf5.pk.activeIdxs.headD 0) 0
      = gf4.playerStacks.getD (gf5.pk.activeIdxs.headD 0) 0 + gf5.stateS.pot ∧
    (gf5.stateS.players.getD (gf5.pk.activeIdxs.headD 0) default).stack
      = gf5.pk.stacks'.getD (gf5.pk.activeIdxs.headD 0) 0 := by
  have hr : Reachable gf4 :=
    reach_step gf3 6 .fold 0
      (reach_step gf2 5 .fold 0
        (reach_step gf1 4 .fold 0
          (reach_step g0c 3 .fold 0
            (Reachable.init stacks1000 deckA deckRest deckB validInit_concrete)
            (by decide))
          (by decide))
        (by decide))
      (by decide)
  exact c4_foldout_amended gf4 gf5 1 hr (by decide) (by decide)

end PokerApp
